import Mathlib

/-!
Verification of the qfarm multi-account automation runtime.

This file shallowly embeds the Python sources under `services/` (rate
limiter, gateway session, runtime manager start retry, state-store
bindings, analytics, farm-service phase helpers, quiet hours, JSON
persistence) as executable Lean definitions, and proves or refutes the
frozen specification claims about them.

Modelling conventions:
* Python `str` is Lean `String`; `str.strip` / `str.lower` / `split` /
  `int(...)` are re-implemented over `List Char` so that everything
  evaluates by `decide` / `rfl`.
* Python `float` arithmetic is modelled over `ℚ`; the concrete inputs used
  in counterexamples and witnesses are chosen so the float and rational
  computations agree exactly.
* Python dicts are modelled either as functions `String → Option α`
  (when iteration order is irrelevant) or as insertion-ordered association
  lists (when the code iterates over them).
* asyncio coroutines are modelled as state-transition functions; a
  cancellation scenario parameter says at which `await` the caller is
  cancelled.
-/

namespace QFarm

/-! ### String helpers (Python `str.strip`, `str.lower`, `in`, `int(...)`) -/

/-- Drop leading whitespace characters. -/
def dropWs (l : List Char) : List Char := l.dropWhile Char.isWhitespace

/-- Python `str.strip()`: drop leading then trailing whitespace. -/
def trimChars (l : List Char) : List Char :=
  ((dropWs l).reverse.dropWhile Char.isWhitespace).reverse

/-- Python `str.strip()` on `String`. -/
def strStrip (s : String) : String := ⟨trimChars s.data⟩

/-- Python `str.lower()` (ASCII case folding; the sources only lowercase
ASCII error messages, CJK characters are untouched by both). -/
def strLower (s : String) : String := ⟨s.data.map Char.toLower⟩

/-- Python `pat in hay` substring containment. -/
def containsSub (hay pat : String) : Bool := decide (pat.data <:+: hay.data)

/-- Split a character list on a separator character (Python `str.split(sep)`);
`""` splits to `[""]`, matching Python. -/
def splitOnCharAux (sep : Char) : List Char → List Char → List (List Char)
  | [], acc => [acc.reverse]
  | c :: rest, acc =>
    if c = sep then acc.reverse :: splitOnCharAux sep rest []
    else splitOnCharAux sep rest (c :: acc)

def splitOnChar (sep : Char) (l : List Char) : List (List Char) :=
  splitOnCharAux sep l []

/-- Decimal digits to a number; fails on any non-digit. -/
def digitsToNatAux : List Char → Nat → Option Nat
  | [], acc => some acc
  | c :: rest, acc =>
    if c.isDigit then digitsToNatAux rest (acc * 10 + (c.toNat - '0'.toNat))
    else none

/-- Python `int(s)` on a string: strips surrounding whitespace, allows one
sign, then decimal digits; anything else raises (here: `none`). -/
def pyInt? (s : String) : Option Int :=
  match trimChars s.data with
  | [] => none
  | '-' :: rest =>
    match rest with
    | [] => none
    | _ => (digitsToNatAux rest 0).map (fun n => -(n : Int))
  | '+' :: rest =>
    match rest with
    | [] => none
    | _ => (digitsToNatAux rest 0).map (fun n => (n : Int))
  | l => (digitsToNatAux l 0).map (fun n => (n : Int))

/-! Trim is idempotent (needed to re-establish invariants about stored,
already-normalized ids). -/

lemma dropWhile_head_not {α : Type} (p : α → Bool) (l : List α) :
    ∀ a, (l.dropWhile p).head? = some a → p a = false := by
  induction l with
  | nil => intro a h; cases h
  | cons x xs ih =>
    intro a h
    rw [List.dropWhile_cons] at h
    by_cases hx : p x
    · rw [if_pos hx] at h; exact ih a h
    · rw [if_neg hx] at h
      injection h with h; subst h
      simpa using hx

lemma dropWhile_of_head_not {α : Type} (p : α → Bool) (l : List α)
    (h : ∀ a, l.head? = some a → p a = false) : l.dropWhile p = l := by
  cases l with
  | nil => rfl
  | cons x xs =>
    rw [List.dropWhile_cons, if_neg]
    simp [h x rfl]

lemma getLast?_of_suffix {α : Type} {r l : List α} (h : r <:+ l) (hr : r ≠ []) :
    r.getLast? = l.getLast? := by
  rcases h with ⟨pre, rfl⟩
  rw [List.getLast?_append]
  rcases hx : r.getLast? with _ | a
  · exact absurd (List.getLast?_eq_none_iff.mp hx) hr
  · rfl

lemma trimChars_idem (l : List Char) : trimChars (trimChars l) = trimChars l := by
  unfold trimChars dropWs
  set m := l.dropWhile Char.isWhitespace with hm
  set r := m.reverse.dropWhile Char.isWhitespace with hr
  rcases hre : r with _ | ⟨c, cs⟩
  · simp
  · rw [← hre]
    have hrne : r ≠ [] := by rw [hre]; simp
    -- the reversed trimmed list starts with a non-whitespace character
    have hhead : ∀ a, r.reverse.head? = some a → a.isWhitespace = false := by
      intro a ha
      rw [List.head?_reverse] at ha
      have hlast : r.getLast? = m.reverse.getLast? :=
        getLast?_of_suffix (List.dropWhile_suffix _) hrne
      rw [hlast, List.getLast?_reverse] at ha
      exact dropWhile_head_not Char.isWhitespace l a (hm ▸ ha)
    rw [dropWhile_of_head_not _ _ hhead, List.reverse_reverse,
      dropWhile_of_head_not _ r (fun a ha => dropWhile_head_not _ m.reverse a
        (by rw [← hr]; exact ha))]

lemma strStrip_idem (s : String) : strStrip (strStrip s) = strStrip s := by
  unfold strStrip
  exact congrArg String.mk (trimChars_idem s.data)

/-! ### Farm service: phase-time normalization and current phase
Source: `services/domain/farm_service.py` (`_to_time_sec`, `_current_phase`). -/

/-- Source `_to_time_sec`: non-positive raw values normalize to 0, values
above 10^12 are milliseconds (floor-divided by 1000), the rest are seconds.
The divisor branch only sees positive values, so Lean `Int` division agrees
with Python `//` there. -/
def to_time_sec (n : Int) : Int :=
  if n ≤ 0 then 0
  else if n > 1000000000000 then n / 1000
  else n

/-- One wire phase entry; only the fields `_current_phase` reads. -/
structure PlantPhase where
  phase : Int
  begin_time : Int
deriving DecidableEq

/-- Loop body of `FarmService._current_phase`: fold over the phases keeping
the candidate with the greatest normalized `begin_time ≤ now` (ties: the
later phase in list order wins, via `>=`). -/
def current_phase_aux (now : Int) :
    List PlantPhase → Option PlantPhase → Int → Option PlantPhase
  | [], cand, _ => cand
  | p :: rest, cand, candBegin =>
    let b := to_time_sec p.begin_time
    if b ≤ 0 then current_phase_aux now rest cand candBegin
    else if b ≤ now ∧ b ≥ candBegin then current_phase_aux now rest (some p) b
    else current_phase_aux now rest cand candBegin

/-- Source `FarmService._current_phase`. -/
def current_phase (phases : List PlantPhase) (now : Int) : Option PlantPhase :=
  match current_phase_aux now phases none (-1) with
  | some c => some c
  | none => phases.head?

/-! ### Quiet hours
Source: `services/runtime/account_runtime.py`
(`AccountRuntime._in_friend_quiet_hours`, `_parse_hhmm`). -/

/-- The `friendQuietHours` settings mapping.  The Python dict field `end`
is a reserved word in Lean and is called `stop` here; an absent or empty
field is modelled by `""` (both are falsy in the source's
`str(cfg.get(...) or default)`). -/
structure FriendQuietHours where
  enabled : Bool
  start : String
  stop : String

/-- Source `AccountRuntime._parse_hhmm`. -/
def parse_hhmm (value : String) : Option Int :=
  match splitOnChar ':' (trimChars value.data) with
  | [h, m] =>
    match pyInt? ⟨h⟩, pyInt? ⟨m⟩ with
    | some hh, some mm =>
      if hh < 0 ∨ hh > 23 ∨ mm < 0 ∨ mm > 59 then none
      else some (hh * 60 + mm)
    | _, _ => none
  | _ => none

/-- Source `AccountRuntime._in_friend_quiet_hours`; the local-time current
minute (`tm_hour*60 + tm_min`) is passed in as a parameter. -/
def in_friend_quiet_hours (cfg : FriendQuietHours) (currentMinute : Int) : Bool :=
  if !cfg.enabled then false
  else
    let startStr := if cfg.start = "" then "23:00" else cfg.start
    let stopStr := if cfg.stop = "" then "07:00" else cfg.stop
    match parse_hhmm startStr, parse_hhmm stopStr with
    | some s, some e =>
      if s = e then true
      else if s < e then decide (s ≤ currentMinute ∧ currentMinute < e)
      else decide (currentMinute ≥ s ∨ currentMinute < e)
    | _, _ => false

/-! ### JSON persistence traces
Sources: `QFarmRuntimeManager._save_json_atomic` and
`QFarmStateStore._save_json`.  A save is modelled by the list of
filesystem operations it performs. -/

inductive FsOp
  | write (path : String) (payload : String)
  | rename (src : String) (dest : String)
deriving DecidableEq

/-- Source `QFarmRuntimeManager._save_json_atomic`: write `<path>.tmp`
(`path.with_suffix(path.suffix + ".tmp")`, i.e. the `.tmp`-suffixed
sibling), then `tmp.replace(path)`. -/
def save_json_atomic (path payload : String) : List FsOp :=
  [.write (path ++ ".tmp") payload, .rename (path ++ ".tmp") path]

/-- Source `QFarmStateStore._save_json`: a plain `open(path, "w")` +
`json.dump` — a single direct write, no temporary file and no rename. -/
def state_store_save_json (path payload : String) : List FsOp :=
  [.write path payload]

/-- A trace is an atomic save of `path` iff it writes `path ++ ".tmp"` and
then renames that temporary file onto `path`. -/
def isAtomicSaveTrace (trace : List FsOp) (path : String) : Bool :=
  match trace with
  | [.write p _, .rename q r] => p == path ++ ".tmp" && q == p && r == path
  | _ => false

/-! ### Rate limiter
Source: `services/rate_limiter.py` (`RateLimiter`, `_RateLease`).
`asyncio.Semaphore` is its permit counter, `asyncio.Lock` objects in
`_account_locks` are `Bool` locked-flags, leases live in a history list so
that "live (unreleased) leases" can be counted.  `acquire` is a state
transition parameterized by a cancellation scenario saying at which
`await` (if any) the caller is cancelled; proceeding past an `await`
presumes the awaited resource was available, which the theorems carry as
hypotheses. -/

/-- Pointwise update of a dict modelled as a function (`none` deletes). -/
def upd {β : Type} (f : String → Option β) (k : String) (v : Option β) :
    String → Option β :=
  fun x => if x = k then v else f x

structure RateLimiterConfig where
  readCooldownSec : ℚ
  writeCooldownSec : ℚ
  globalConcurrency : Nat
  accountWriteSerialized : Bool

structure RateLimiterState where
  semAvailable : Nat
  nextReadTs : String → Option ℚ
  nextWriteTs : String → Option ℚ
  accountLocks : String → Option Bool

/-- One `_RateLease`: which per-account lock it holds (the constructor's
`account_lock` argument) and its `_released` flag. -/
structure RateLease where
  accountLock : Option String
  released : Bool
deriving DecidableEq

/-- The limiter state plus the history of granted leases. -/
structure RateLimiterSys where
  st : RateLimiterState
  leases : List RateLease

/-- Source `RateLimiter.__init__`: cooldowns are clamped at 0, the global
semaphore capacity at 1; all maps start empty. -/
def RateLimiter.init (readCooldown writeCooldown : ℚ) (globalConcurrency : Int)
    (accountWriteSerialized : Bool) : RateLimiterConfig × RateLimiterSys :=
  (⟨max 0 readCooldown, max 0 writeCooldown, (max 1 globalConcurrency).toNat,
    accountWriteSerialized⟩,
   ⟨⟨(max 1 globalConcurrency).toNat, fun _ => none, fun _ => none, fun _ => none⟩,
    []⟩)

inductive AcqScenario
  | ok
  | cancelAtSem
  | cancelAtLock
deriving DecidableEq

inductive AcqResult
  | lease (idx : Nat)
  | rateLimited
  | invalidUser
  | cancelled
deriving DecidableEq

/-- Source `RateLimiter.acquire`.  Path: reject an empty user id; under the
state lock check and advance the per-user next-allowed timestamp (raising
`RateLimitError` before advancing it when still cooling down); acquire
the global semaphore; for serialized writes with a non-empty account id,
`setdefault` the per-account lock and acquire it; return a lease.  The
`except BaseException` cleanup releases the account lock only if it was
acquired, and the semaphore only if it was acquired.  `sc` says where a
cancellation strikes; a scenario that proceeds past an `await` is only
meaningful when the resource was available (hypotheses in the theorems). -/
def acquire (cfg : RateLimiterConfig) (sys : RateLimiterSys) (user : String)
    (isWrite : Bool) (accountId : Option String) (now : ℚ) (sc : AcqScenario) :
    RateLimiterSys × AcqResult :=
  let uid := strStrip user
  if uid = "" then (sys, .invalidUser)
  else
    let cooldown := if isWrite then cfg.writeCooldownSec else cfg.readCooldownSec
    let tracking := if isWrite then sys.st.nextWriteTs else sys.st.nextReadTs
    let nextTs := (tracking uid).getD 0
    if nextTs > now then (sys, .rateLimited)
    else
      let tracking' := upd tracking uid (some (now + cooldown))
      let st1 :=
        if isWrite then { sys.st with nextWriteTs := tracking' }
        else { sys.st with nextReadTs := tracking' }
      match sc with
      | .cancelAtSem =>
        -- cancelled inside `await self._global_sem.acquire()`: nothing yet
        -- acquired, the cleanup releases nothing
        ({ sys with st := st1 }, .cancelled)
      | sc' =>
        let st2 := { st1 with semAvailable := st1.semAvailable - 1 }
        let aid := (accountId.map strStrip).getD ""
        if isWrite = true ∧ cfg.accountWriteSerialized = true ∧ aid ≠ "" then
          -- `setdefault` creates an unlocked lock entry when absent
          let locks1 :=
            match st2.accountLocks aid with
            | none => upd st2.accountLocks aid (some false)
            | some _ => st2.accountLocks
          match sc' with
          | .cancelAtLock =>
            -- cancelled inside `await account_lock.acquire()`: the lock was
            -- not acquired, the cleanup releases the global semaphore
            ({ sys with
                st := { st2 with
                          semAvailable := st2.semAvailable + 1,
                          accountLocks := locks1 } },
             .cancelled)
          | _ =>
            let locks2 := upd locks1 aid (some true)
            ({ sys with
                st := { st2 with accountLocks := locks2 },
                leases := sys.leases ++ [⟨some aid, false⟩] },
             .lease sys.leases.length)
        else
          ({ sys with st := st2, leases := sys.leases ++ [⟨none, false⟩] },
           .lease sys.leases.length)

/-- Source `_RateLease.release`: idempotent; releases the account lock only
if it is currently locked, then releases the global semaphore. -/
def lease_release (sys : RateLimiterSys) (i : Nat) : RateLimiterSys :=
  match sys.leases.get? i with
  | none => sys
  | some l =>
    if l.released then sys
    else
      let leases' := sys.leases.set i { l with released := true }
      let st1 :=
        match l.accountLock with
        | some aid =>
          match sys.st.accountLocks aid with
          | some true =>
            { sys.st with accountLocks := upd sys.st.accountLocks aid (some false) }
          | _ => sys.st
        | none => sys.st
      { sys with
          st := { st1 with semAvailable := st1.semAvailable + 1 },
          leases := leases' }

/-- Number of live (unreleased) leases. -/
def liveLeaseCount (sys : RateLimiterSys) : Nat :=
  sys.leases.countP (fun l => !l.released)

/-- Semaphore conservation: permits held (capacity minus available) equal
the live leases; stated addition-style to stay in `Nat`. -/
def SemInv (cfg : RateLimiterConfig) (sys : RateLimiterSys) : Prop :=
  sys.st.semAvailable + liveLeaseCount sys = cfg.globalConcurrency

/-! ### Theorems: semaphore conservation (C1) -/

lemma countP_set_release :
    ∀ (ls : List RateLease) (i : Nat) (l : RateLease),
      ls.get? i = some l → l.released = false →
      (ls.set i { l with released := true }).countP (fun x => !x.released) + 1 =
        ls.countP (fun x => !x.released) := by
  intro ls
  induction ls with
  | nil => intro i l h; cases h
  | cons a ls ih =>
    intro i l h hrel
    cases i with
    | zero =>
      simp only [List.get?] at h
      injection h with h; subst h
      simp [List.set, List.countP_cons, hrel]
    | succ n =>
      simp only [List.get?] at h
      have := ih n l h hrel
      simp only [List.set, List.countP_cons]
      omega

/-- C1: the number of global-semaphore permits held always equals the
number of live leases: the invariant `semAvailable + liveLeases = capacity`
holds in the initial state, is preserved by any `acquire` attempt — lease
granted, rate-limit / invalid-user error, or cancellation while waiting at
the global semaphore or at the per-account write lock — and by any lease
release, and releasing the same lease twice releases its resources only
once. -/
theorem rate_limiter_semaphore_conservation
    (cfg : RateLimiterConfig) (sys : RateLimiterSys) (user : String)
    (isWrite : Bool) (accountId : Option String) (now : ℚ) (sc : AcqScenario)
    (hInv : SemInv cfg sys)
    (hsem : (strStrip user ≠ "" ∧
        ((if isWrite then sys.st.nextWriteTs else sys.st.nextReadTs)
          (strStrip user)).getD 0 ≤ now ∧ sc ≠ AcqScenario.cancelAtSem) →
      0 < sys.st.semAvailable) :
    SemInv cfg (acquire cfg sys user isWrite accountId now sc).1 ∧
    (∀ i, SemInv cfg (lease_release sys i)) ∧
    (∀ i, lease_release (lease_release sys i) i = lease_release sys i) ∧
    (∀ r w gc ser,
      SemInv (RateLimiter.init r w gc ser).1 (RateLimiter.init r w gc ser).2) := by
  refine ⟨?_, ?_, ?_, ?_⟩
  · -- acquire preserves the invariant on every path
    cases isWrite with
    | true =>
      by_cases huid : strStrip user = ""
      · simpa [acquire, huid] using hInv
      · by_cases hcd : (sys.st.nextWriteTs (strStrip user)).getD 0 > now
        · simpa [acquire, huid, hcd] using hInv
        · have h0 : sc ≠ AcqScenario.cancelAtSem → 0 < sys.st.semAvailable :=
            fun h => hsem ⟨huid, by simpa using le_of_not_lt hcd, h⟩
          simp only [SemInv, liveLeaseCount] at hInv ⊢
          cases sc with
          | cancelAtSem => simpa [acquire, huid, hcd] using hInv
          | cancelAtLock =>
            have h1 := h0 (by simp)
            by_cases hw : cfg.accountWriteSerialized = true ∧
                ((accountId.map strStrip).getD "") ≠ ""
            · rcases hx : sys.st.accountLocks ((accountId.map strStrip).getD "")
                with _ | b <;>
              · simp [acquire, huid, hcd, hw.1, hw.2, hx]
                omega
            · simp [acquire, huid, hcd, hw, List.countP_append]
              omega
          | ok =>
            have h1 := h0 (by simp)
            by_cases hw : cfg.accountWriteSerialized = true ∧
                ((accountId.map strStrip).getD "") ≠ ""
            · simp [acquire, huid, hcd, hw.1, hw.2, List.countP_append]
              omega
            · simp [acquire, huid, hcd, hw, List.countP_append]
              omega
    | false =>
      by_cases huid : strStrip user = ""
      · simpa [acquire, huid] using hInv
      · by_cases hcd : (sys.st.nextReadTs (strStrip user)).getD 0 > now
        · simpa [acquire, huid, hcd] using hInv
        · have h0 : sc ≠ AcqScenario.cancelAtSem → 0 < sys.st.semAvailable :=
            fun h => hsem ⟨huid, by simpa using le_of_not_lt hcd, h⟩
          simp only [SemInv, liveLeaseCount] at hInv ⊢
          cases sc with
          | cancelAtSem => simpa [acquire, huid, hcd] using hInv
          | cancelAtLock =>
            have h1 := h0 (by simp)
            simp [acquire, huid, hcd, List.countP_append]
            omega
          | ok =>
            have h1 := h0 (by simp)
            simp [acquire, huid, hcd, List.countP_append]
            omega
  · -- release preserves the invariant
    intro i
    rcases hg : sys.leases[i]? with _ | l
    · simpa [lease_release, hg] using hInv
    · by_cases hrel : l.released
      · simpa [lease_release, hg, hrel] using hInv
      · have hcount := countP_set_release sys.leases i l
          (by rw [List.get?_eq_getElem?, hg]) (by simpa using hrel)
        simp only [SemInv, liveLeaseCount] at hInv
        rcases l with ⟨alock, rel⟩
        have hrf : rel = false := by simpa using hrel
        subst hrf
        simp only at hcount
        rcases alock with _ | aid
        · simp [lease_release, hg, SemInv, liveLeaseCount]
          omega
        · rcases hx : sys.st.accountLocks aid with _ | b
          · simp [lease_release, hg, hx, SemInv, liveLeaseCount]
            omega
          · cases b
            · simp [lease_release, hg, hx, SemInv, liveLeaseCount]
              omega
            · simp [lease_release, hg, hx, SemInv, liveLeaseCount]
              omega
  · -- double release is a no-op the second time
    intro i
    rcases hg : sys.leases[i]? with _ | l
    · simp [lease_release, hg]
    · by_cases hrel : l.released
      · simp [lease_release, hg, hrel]
      · have hlt : i < sys.leases.length := by
          by_contra hge
          rw [List.getElem?_eq_none (Nat.le_of_not_lt hge)] at hg; cases hg
        have hg' : (sys.leases.set i { l with released := true })[i]? =
            some { l with released := true } := by
          rw [List.getElem?_set_self']
          simp [hg]
        simp [lease_release, hg, hrel, hg']
  · intro r w gc ser
    simp [RateLimiter.init, SemInv, liveLeaseCount]

/-- Witness for C1: the freshly initialized limiter (capacity 2), a write
acquire that succeeds, plus the release facts. -/
theorem rate_limiter_semaphore_conservation_witness :
    SemInv (RateLimiter.init 1 2 2 true).1
      ((acquire (RateLimiter.init 1 2 2 true).1 (RateLimiter.init 1 2 2 true).2
        "u1" true (some "acc-1") 5 .ok).1) ∧
    (∀ i, SemInv (RateLimiter.init 1 2 2 true).1
      (lease_release (RateLimiter.init 1 2 2 true).2 i)) ∧
    (∀ i, lease_release (lease_release (RateLimiter.init 1 2 2 true).2 i) i =
      lease_release (RateLimiter.init 1 2 2 true).2 i) ∧
    (∀ r w gc ser,
      SemInv (RateLimiter.init r w gc ser).1 (RateLimiter.init r w gc ser).2) :=
  rate_limiter_semaphore_conservation
    (RateLimiter.init 1 2 2 true).1 (RateLimiter.init 1 2 2 true).2
    "u1" true (some "acc-1") 5 .ok rfl (by decide)

/-! ### Theorems: cancelled acquire frame effect (C10) -/

/-- C10 counterexample: a write acquire on a fresh account id cancelled
while waiting for the per-account lock leaves behind a newly created
(unlocked) `_account_locks` entry — a state change beyond the advanced
per-user timestamp — so "nothing other than that timestamp changes" is
false on the code. -/
theorem cancelled_acquire_creates_lock_entry_counterexample :
    (acquire (RateLimiter.init 0 2 2 true).1 (RateLimiter.init 0 2 2 true).2
        "u2" true (some "acc-1") 0 .cancelAtLock).2 = .cancelled ∧
    (RateLimiter.init 0 2 2 true).2.st.accountLocks "acc-1" = none ∧
    (acquire (RateLimiter.init 0 2 2 true).1 (RateLimiter.init 0 2 2 true).2
        "u2" true (some "acc-1") 0 .cancelAtLock).1.st.accountLocks "acc-1" =
      some false := by
  refine ⟨by decide, rfl, by decide⟩

/-- C10 amended: an acquire that passes the cooldown check and is then
cancelled at the global semaphore or at the per-account lock returns no
lease, restores the semaphore count and every lock's locked-state, leaves
the lease history and the other cooldown class untouched, and keeps the
user's next-allowed timestamp advanced by the full cooldown; the only
other possible state change is the creation of one unlocked per-account
lock entry by `setdefault` for a previously unseen account id. -/
theorem cancelled_acquire_frame
    (cfg : RateLimiterConfig) (sys : RateLimiterSys) (user : String)
    (isWrite : Bool) (accountId : Option String) (now : ℚ) (sc : AcqScenario)
    (huid : strStrip user ≠ "")
    (hcd : ((if isWrite then sys.st.nextWriteTs else sys.st.nextReadTs)
        (strStrip user)).getD 0 ≤ now)
    (hsc : sc = AcqScenario.cancelAtSem ∨ sc = AcqScenario.cancelAtLock)
    (hlockstep : sc = AcqScenario.cancelAtLock →
      isWrite = true ∧ cfg.accountWriteSerialized = true ∧
        ((accountId.map strStrip).getD "") ≠ "")
    (hsem : sc = AcqScenario.cancelAtLock → 0 < sys.st.semAvailable) :
    (acquire cfg sys user isWrite accountId now sc).2 = .cancelled ∧
    (acquire cfg sys user isWrite accountId now sc).1.leases = sys.leases ∧
    (acquire cfg sys user isWrite accountId now sc).1.st.semAvailable =
      sys.st.semAvailable ∧
    (isWrite = true →
      (acquire cfg sys user isWrite accountId now sc).1.st.nextWriteTs =
        upd sys.st.nextWriteTs (strStrip user)
          (some (now + cfg.writeCooldownSec)) ∧
      (acquire cfg sys user isWrite accountId now sc).1.st.nextReadTs =
        sys.st.nextReadTs) ∧
    (isWrite = false →
      (acquire cfg sys user isWrite accountId now sc).1.st.nextReadTs =
        upd sys.st.nextReadTs (strStrip user)
          (some (now + cfg.readCooldownSec)) ∧
      (acquire cfg sys user isWrite accountId now sc).1.st.nextWriteTs =
        sys.st.nextWriteTs) ∧
    ((acquire cfg sys user isWrite accountId now sc).1.st.accountLocks =
        sys.st.accountLocks ∨
      (sys.st.accountLocks ((accountId.map strStrip).getD "") = none ∧
        (acquire cfg sys user isWrite accountId now sc).1.st.accountLocks =
          upd sys.st.accountLocks ((accountId.map strStrip).getD "")
            (some false))) := by
  have hngt : ¬ ((if isWrite then sys.st.nextWriteTs else sys.st.nextReadTs)
      (strStrip user)).getD 0 > now := not_lt.mpr hcd
  rcases hsc with rfl | rfl
  · cases isWrite <;> simp only [Bool.false_eq_true, if_false, if_true] at hngt <;>
      refine ⟨?_, ?_, ?_, ?_, ?_, Or.inl ?_⟩ <;>
      simp [acquire, huid, hngt]
  · obtain ⟨hwr, hser, haid⟩ := hlockstep rfl
    subst hwr
    simp only [if_true] at hngt
    have h0 := hsem rfl
    rcases hx : sys.st.accountLocks ((accountId.map strStrip).getD "")
      with _ | b
    · refine ⟨?_, ?_, ?_, ?_, ?_, Or.inr ⟨rfl, ?_⟩⟩ <;>
        simp [acquire, huid, hngt, hser, haid, hx] <;> omega
    · refine ⟨?_, ?_, ?_, ?_, ?_, Or.inl ?_⟩ <;>
        simp [acquire, huid, hngt, hser, haid, hx] <;> omega

/-- Witness for C10: concrete limiter, write acquire on a fresh account,
cancelled at the per-account-lock wait. -/
theorem cancelled_acquire_frame_witness :
    (acquire (RateLimiter.init 1 2 3 true).1 (RateLimiter.init 1 2 3 true).2
        "u7" true (some "acc-9") 4 .cancelAtLock).2 = .cancelled ∧
    (acquire (RateLimiter.init 1 2 3 true).1 (RateLimiter.init 1 2 3 true).2
        "u7" true (some "acc-9") 4 .cancelAtLock).1.leases =
      (RateLimiter.init 1 2 3 true).2.leases ∧
    (acquire (RateLimiter.init 1 2 3 true).1 (RateLimiter.init 1 2 3 true).2
        "u7" true (some "acc-9") 4 .cancelAtLock).1.st.semAvailable =
      (RateLimiter.init 1 2 3 true).2.st.semAvailable ∧
    (true = true →
      (acquire (RateLimiter.init 1 2 3 true).1 (RateLimiter.init 1 2 3 true).2
          "u7" true (some "acc-9") 4 .cancelAtLock).1.st.nextWriteTs =
        upd (RateLimiter.init 1 2 3 true).2.st.nextWriteTs (strStrip "u7")
          (some (4 + (RateLimiter.init 1 2 3 true).1.writeCooldownSec)) ∧
      (acquire (RateLimiter.init 1 2 3 true).1 (RateLimiter.init 1 2 3 true).2
          "u7" true (some "acc-9") 4 .cancelAtLock).1.st.nextReadTs =
        (RateLimiter.init 1 2 3 true).2.st.nextReadTs) ∧
    (true = false →
      (acquire (RateLimiter.init 1 2 3 true).1 (RateLimiter.init 1 2 3 true).2
          "u7" true (some "acc-9") 4 .cancelAtLock).1.st.nextReadTs =
        upd (RateLimiter.init 1 2 3 true).2.st.nextReadTs (strStrip "u7")
          (some (4 + (RateLimiter.init 1 2 3 true).1.readCooldownSec)) ∧
      (acquire (RateLimiter.init 1 2 3 true).1 (RateLimiter.init 1 2 3 true).2
          "u7" true (some "acc-9") 4 .cancelAtLock).1.st.nextWriteTs =
        (RateLimiter.init 1 2 3 true).2.st.nextWriteTs) ∧
    ((acquire (RateLimiter.init 1 2 3 true).1 (RateLimiter.init 1 2 3 true).2
          "u7" true (some "acc-9") 4 .cancelAtLock).1.st.accountLocks =
        (RateLimiter.init 1 2 3 true).2.st.accountLocks ∨
      ((RateLimiter.init 1 2 3 true).2.st.accountLocks
          ((( some "acc-9").map strStrip).getD "") = none ∧
        (acquire (RateLimiter.init 1 2 3 true).1 (RateLimiter.init 1 2 3 true).2
            "u7" true (some "acc-9") 4 .cancelAtLock).1.st.accountLocks =
          upd (RateLimiter.init 1 2 3 true).2.st.accountLocks
            ((( some "acc-9").map strStrip).getD "") (some false))) :=
  cancelled_acquire_frame (RateLimiter.init 1 2 3 true).1
    (RateLimiter.init 1 2 3 true).2 "u7" true (some "acc-9") 4 .cancelAtLock
    (by decide) (by decide) (Or.inr rfl) (fun _ => by decide) (fun _ => by decide)

/-! ### Gateway session
Source: `services/protocol/session.py` (`GatewaySession`).  The session's
mutable fields relevant to the claims are embedded; asyncio futures are a
heap `futures` indexed by future id, the pending map is an
insertion-ordered association list `clientSeq ↦ future id`.  The send lock
serializes `call`'s allocate-encode-register-send critical section, so a
session history is a sequence of whole `call_send` steps. -/

/-- Completion value of a pending-call future: a reply body, or a
`GatewaySessionError` message (remote error, timeout, disconnect). -/
inductive FutVal
  | ok (body : List Nat)
  | err (msg : String)
deriving DecidableEq

/-- The meta fields of an outgoing Request frame built by `encode_request`
(`message_type = 1`); the opaque body is not modelled. -/
structure Frame where
  service : String
  method : String
  message_type : Nat
  client_seq : Nat
  server_seq : Nat
deriving DecidableEq

structure SessionState where
  client_seq : Nat
  server_seq : Nat
  pending : List (Nat × Nat)
  futures : List (Option FutVal)
deriving DecidableEq

/-- The critical section of `GatewaySession.call` held under `_send_lock`:
read and bump `_client_seq`, encode the Request with that seq and the
latest `_server_seq`, create a future, register it in `_pending`, send the
frame.  Returns the wire frame, the caller's future id, and the new state. -/
def call_send (s : SessionState) (service method : String) :
    Frame × Nat × SessionState :=
  let seq := s.client_seq
  let fid := s.futures.length
  (⟨service, method, 1, seq, s.server_seq⟩, fid,
   { s with
      client_seq := s.client_seq + 1,
      pending := s.pending ++ [(seq, fid)],
      futures := s.futures ++ [none] })

/-- A burst of sequential `call` invocations on one live session (the send
lock serializes them); collects the outgoing frames. -/
def run_calls (s : SessionState) : List (String × String) → List Frame × SessionState
  | [] => ([], s)
  | (svc, m) :: rest =>
    let r := call_send s svc m
    let rec' := run_calls r.2.2 rest
    (r.1 :: rec'.1, rec'.2)

/-- Complete a future in the heap. -/
def set_fut (heap : List (Option FutVal)) (fid : Nat) (v : FutVal) :
    List (Option FutVal) :=
  heap.set fid (some v)

/-- Source `GatewaySession._fail_all_pending`: snapshot the pending map,
clear it, and complete every not-yet-done future with the error `reason`.
The receive loop's `finally` runs it with reason `"websocket disconnected"`
on socket close, receive error, and task cancellation from `stop()`. -/
def fail_all_pending (s : SessionState) (reason : String) : SessionState :=
  { s with
      pending := [],
      futures := s.pending.foldl (fun heap p =>
        match heap.get? p.2 with
        | some none => set_fut heap p.2 (.err reason)
        | _ => heap) s.futures }

/-- Source `_handle_binary`, `message_type = 2` branch: pop the pending
entry for the reply's `clientSeq`; if a not-yet-done future was there,
complete it with the body or with the remote error. -/
def handle_reply (s : SessionState) (seq : Nat) (errorCode : Int)
    (errorMessage : String) (body : List Nat) : SessionState :=
  match s.pending.find? (fun p => p.1 = seq) with
  | none => s
  | some p =>
    let s' := { s with pending := s.pending.filter (fun q => ¬ q.1 = seq) }
    match s.futures.get? p.2 with
    | some none =>
      { s' with
          futures := set_fut s.futures p.2
            (if errorCode ≠ 0 then .err errorMessage else .ok body) }
    | _ => s'

/-- Source `GatewaySession.call` timeout path: on `asyncio.TimeoutError`
the entry is popped from the pending map (the caller observed the
timeout error; its future is abandoned). -/
def timeout_pop (s : SessionState) (seq : Nat) : SessionState :=
  { s with pending := s.pending.filter (fun q => ¬ q.1 = seq) }

/-! ### Theorems: clientSeq monotonicity (C2) -/

lemma run_calls_seq_lower (calls : List (String × String)) :
    ∀ (s : SessionState) f, f ∈ (run_calls s calls).1 →
      s.client_seq ≤ f.client_seq ∧ f.message_type = 1 := by
  induction calls with
  | nil => intro s f hf; simp [run_calls] at hf
  | cons c rest ih =>
    intro s f hf
    rcases c with ⟨svc, m⟩
    simp only [run_calls, call_send, List.mem_cons] at hf
    rcases hf with rfl | hf
    · exact ⟨le_refl _, rfl⟩
    · have := ih _ f hf
      simp only at this
      exact ⟨Nat.le_of_succ_le this.1, this.2⟩

/-- C2: on a single live session, a serialized burst of `call`s (the send
lock makes every real history such a burst) emits Request frames whose
`clientSeq`s are strictly increasing in send order — so no two calls can
obtain the same sequence number — and every emitted frame is a Request
(`messageType = 1`). -/
theorem client_seq_strictly_increasing (s : SessionState)
    (calls : List (String × String)) :
    List.Pairwise (fun f g => f.client_seq < g.client_seq)
      (run_calls s calls).1 ∧
    ∀ f ∈ (run_calls s calls).1, f.message_type = 1 := by
  constructor
  · induction calls generalizing s with
    | nil => simp [run_calls]
    | cons c rest ih =>
      rcases c with ⟨svc, m⟩
      simp only [run_calls]
      refine List.Pairwise.cons ?_ (ih _)
      intro g hg
      have := (run_calls_seq_lower rest _ g hg).1
      simp only [call_send] at this
      exact Nat.lt_of_succ_le this
  · intro f hf; exact (run_calls_seq_lower calls s f hf).2

/-! ### Theorems: pending map drained on disconnect (C3) -/

lemma fail_fold_spec (reason : String) :
    ∀ (pend : List (Nat × Nat)) (heap : List (Option FutVal)) (fid : Nat),
      (∀ v, heap.get? fid = some (some v) →
        (pend.foldl (fun h p =>
          match h.get? p.2 with
          | some none => set_fut h p.2 (.err reason)
          | _ => h) heap).get? fid = some (some v)) ∧
      ((∃ p ∈ pend, p.2 = fid) → heap.get? fid = some none →
        (pend.foldl (fun h p =>
          match h.get? p.2 with
          | some none => set_fut h p.2 (.err reason)
          | _ => h) heap).get? fid = some (some (.err reason))) ∧
      ((¬ ∃ p ∈ pend, p.2 = fid) →
        (pend.foldl (fun h p =>
          match h.get? p.2 with
          | some none => set_fut h p.2 (.err reason)
          | _ => h) heap).get? fid = heap.get? fid) := by
  intro pend
  induction pend with
  | nil => intro heap fid; refine ⟨fun v hv => hv, ?_, fun _ => rfl⟩
           rintro ⟨p, hp, -⟩ -; simp at hp
  | cons q pend ih =>
    intro heap fid
    refine ⟨?_, ?_, ?_⟩
    · intro v hv
      simp only [List.foldl_cons]
      rcases hq : heap.get? q.2 with _ | w
      · simpa [hq] using (ih heap fid).1 v hv
      · rcases w with _ | w'
        · -- q's future is pending: it gets set; fid ≠ q.2 since fid is done
          have hne : fid ≠ q.2 := by
            intro h; rw [h, hq] at hv; cases hv
          have : (set_fut heap q.2 (.err reason)).get? fid = some (some v) := by
            rw [set_fut, List.get?_set_ne _ _ (Ne.symm hne)]; exact hv
          simpa [hq] using (ih _ fid).1 v this
        · simpa [hq] using (ih heap fid).1 v hv
    · rintro ⟨p, hp, rfl⟩ hnone
      simp only [List.foldl_cons]
      rcases List.mem_cons.mp hp with rfl | hp'
      · -- the head entry is the one for fid
        rcases hq : heap.get? p.2 with _ | w
        · rw [hq] at hnone; cases hnone
        · rw [hq] at hnone; injection hnone with h; subst h
          have hset : (set_fut heap p.2 (.err reason)).get? p.2 =
              some (some (.err reason)) := by
            rw [set_fut, List.get?_set_eq]
            have : p.2 < heap.length := by
              by_contra hge
              rw [List.get?_eq_none.mpr (Nat.le_of_not_lt hge)] at hq; cases hq
            simp [this]
          simpa [hq] using (ih _ p.2).1 (.err reason) hset
      · -- fid also occurs later in the list
        rcases hq : heap.get? q.2 with _ | w
        · simpa [hq] using (ih heap p.2).2.1 ⟨p, hp', rfl⟩ hnone
        · rcases w with _ | w'
          · by_cases hfe : p.2 = q.2
            · have hset : (set_fut heap q.2 (.err reason)).get? p.2 =
                  some (some (.err reason)) := by
                rw [hfe, set_fut, List.get?_set_eq]
                have : q.2 < heap.length := by
                  by_contra hge
                  rw [List.get?_eq_none.mpr (Nat.le_of_not_lt hge)] at hq; cases hq
                simp [this]
              simpa [hq] using (ih _ p.2).1 (.err reason) hset
            · have : (set_fut heap q.2 (.err reason)).get? p.2 = some none := by
                rw [set_fut, List.get?_set_ne _ _ (Ne.symm hfe)]; exact hnone
              simpa [hq] using (ih _ p.2).2.1 ⟨p, hp', rfl⟩ this
          · simpa [hq] using (ih heap p.2).2.1 ⟨p, hp', rfl⟩ hnone
    · intro hno
      simp only [List.foldl_cons]
      have hqfid : q.2 ≠ fid := fun h => hno ⟨q, List.mem_cons_self _ _, h⟩
      have hno' : ¬ ∃ p ∈ pend, p.2 = fid := fun ⟨p, hp, h⟩ =>
        hno ⟨p, List.mem_cons_of_mem _ hp, h⟩
      rcases hq : heap.get? q.2 with _ | w
      · simpa [hq] using (ih heap fid).2.2 hno'
      · rcases w with _ | w'
        · have hrest := (ih (set_fut heap q.2 (.err reason)) fid).2.2 hno'
          have hx : (set_fut heap q.2 (.err reason)).get? fid = heap.get? fid := by
            rw [set_fut, List.get?_set_ne _ _ hqfid]
          rw [hx] at hrest
          simpa [hq] using hrest
        · simpa [hq] using (ih heap fid).2.2 hno'

/-- C3: failing all pending calls (what the receive loop's `finally` does
with reason `"websocket disconnected"` on explicit stop, socket close, or
receive error) empties the pending map, completes every future that was
still pending with that Disconnected error, leaves futures that were
already completed (normal reply or remote error) untouched, and touches no
future outside the pending map.  Together with `handle_reply` and
`timeout_pop` removing entries when a caller observes a reply, a remote
error, or a timeout, every outstanding caller has observed one of the
four outcomes after `stop()`. -/
theorem disconnect_drains_pending (s : SessionState) (reason : String) :
    (fail_all_pending s reason).pending = [] ∧
    (∀ p ∈ s.pending, s.futures.get? p.2 = some none →
      (fail_all_pending s reason).futures.get? p.2 =
        some (some (.err reason))) ∧
    (∀ p ∈ s.pending, ∀ v, s.futures.get? p.2 = some (some v) →
      (fail_all_pending s reason).futures.get? p.2 = some (some v)) ∧
    (∀ p ∈ s.pending, p.2 < s.futures.length →
      ∃ v, (fail_all_pending s reason).futures.get? p.2 = some (some v)) ∧
    (∀ fid, (¬ ∃ p ∈ s.pending, p.2 = fid) →
      (fail_all_pending s reason).futures.get? fid = s.futures.get? fid) := by
  refine ⟨rfl, ?_, ?_, ?_, ?_⟩
  · intro p hp hnone
    exact (fail_fold_spec reason s.pending s.futures p.2).2.1 ⟨p, hp, rfl⟩ hnone
  · intro p hp v hv
    exact (fail_fold_spec reason s.pending s.futures p.2).1 v hv
  · intro p hp hlt
    rcases hg : s.futures.get? p.2 with _ | w
    · rw [List.get?_eq_none] at hg; omega
    · rcases w with _ | v
      · exact ⟨.err reason,
          (fail_fold_spec reason s.pending s.futures p.2).2.1 ⟨p, hp, rfl⟩ hg⟩
      · exact ⟨v, (fail_fold_spec reason s.pending s.futures p.2).1 v hg⟩
  · intro fid hno
    exact (fail_fold_spec reason s.pending s.futures fid).2.2 hno

/-- Witness for C3 at a concrete session: two pending calls, one already
completed with a reply, one still pending; after the disconnect the
pending map is empty, the completed future keeps its reply, and the
outstanding one ends with the Disconnected error. -/
theorem disconnect_drains_pending_witness :
    (fail_all_pending
        ⟨3, 7, [(1, 0), (2, 1)], [some (.ok [1]), none]⟩
        "websocket disconnected").pending = [] ∧
    (fail_all_pending
        ⟨3, 7, [(1, 0), (2, 1)], [some (.ok [1]), none]⟩
        "websocket disconnected").futures.get? 1 =
      some (some (.err "websocket disconnected")) ∧
    (fail_all_pending
        ⟨3, 7, [(1, 0), (2, 1)], [some (.ok [1]), none]⟩
        "websocket disconnected").futures.get? 0 =
      some (some (.ok [1])) :=
  ⟨(disconnect_drains_pending
      ⟨3, 7, [(1, 0), (2, 1)], [some (.ok [1]), none]⟩
      "websocket disconnected").1,
   (disconnect_drains_pending _ _).2.1 (2, 1) (by decide) rfl,
   (disconnect_drains_pending _ _).2.2.1 (1, 0) (by decide) (.ok [1]) rfl⟩

/-! ### Runtime manager: start retry
Source: `services/runtime/runtime_manager.py` (`start_account`,
`_normalize_start_error`, `_is_retryable_start_error`,
`_set_runtime_status`).  The attempt loop runs under the per-account start
lock; each C4-runtime start attempt is abstracted as an outcome (success
or an error message).  The status row keeps the three claim-relevant
fields; the wall-clock timestamp fields (`lastStartAt`,
`lastStartSuccessAt`) are environment values and are not modelled.  Every
`_set_runtime_status` patch in this path sets all three fields, so
patch-merge equals record replacement. -/

/-- Source `QFarmRuntimeManager._normalize_start_error`. -/
def normalize_start_error (error : String) : String :=
  let text := strStrip error
  let lowered := strLower text
  if text = "" then "未知错误"
  else if containsSub lowered "invalid response status" && containsSub lowered "400" then
    "网关鉴权失败(HTTP 400)，登录凭据可能已失效，请重新绑定 code 或重新扫码绑定。"
  else if containsSub lowered "missing login code" || containsSub lowered "code 不能为空" then
    "缺少登录凭据 code，请重新绑定 code 或重新扫码绑定。"
  else if containsSub lowered ".login error=" || containsSub lowered "userservice.login error=" then
    "登录鉴权失败，请重新绑定 code 或重新扫码绑定。原始错误: " ++ text
  else text

/-- Source `QFarmRuntimeManager._is_retryable_start_error`: strip + lower,
then non-retryable substrings dominate, else retryable substrings. -/
def is_retryable_start_error (error : String) : Bool :=
  let text := strLower (strStrip error)
  if text = "" then false
  else if
    ["missing login code", "code 不能为空", ".login error=",
     "userservice.login error=", "账号不存在", "account_id",
     "invalid response status", "status\x27, url=\x27wss://",
     " 400"].any (fun w => containsSub text w) then false
  else
    ["websocket disconnected", "websocket connect failed", "connect failed",
     "cannot connect", "request timeout", "timeout", "timed out",
     "connection reset", "broken pipe", "network",
     "temporarily unavailable", "ws"].any (fun w => containsSub text w)

structure StartRetryConfig where
  maxAttempts : Nat
  baseDelaySec : ℚ
  maxDelaySec : ℚ

/-- What one `runtime.start()` attempt does: return, or raise `e` with
`str(e) = msg`. -/
inductive StartOutcome
  | success
  | failure (msg : String)

/-- The claim-relevant fields of the persisted runtime status row. -/
structure RuntimeStatusRow where
  runtimeState : String
  startRetryCount : Nat
  lastStartError : String
deriving DecidableEq

inductive StartResult
  | ok
  | error (msg : String)
  | outOfOutcomes
deriving DecidableEq

structure StartTrace where
  attemptsMade : Nat
  sleeps : List ℚ
  row : RuntimeStatusRow
  result : StartResult

/-- The `for attempt in range(1, attempts + 1)` loop of `start_account`,
scripted by the list of attempt outcomes.  `row` is the persisted status
row, `sleeps` the `asyncio.sleep` durations performed before retries,
`made` the number of start attempts performed so far.
`.outOfOutcomes` is a model artifact for scripts shorter than the loop
needs; the theorems always supply enough outcomes. -/
def start_attempt_loop (cfg : StartRetryConfig) :
    List StartOutcome → Nat → String → RuntimeStatusRow → List ℚ → Nat →
    StartTrace
  | outcomes, attempt, lastError, row, sleeps, made =>
    if attempt > cfg.maxAttempts then
      -- Python's range is exhausted: fall out, returning with the row as-is
      ⟨made, sleeps, row, .ok⟩
    else
      match outcomes with
      | [] => ⟨made, sleeps, row, .outOfOutcomes⟩
      | o :: rest =>
        let row1 : RuntimeStatusRow :=
          { row with
              runtimeState := if attempt = 1 then "starting" else "retrying",
              startRetryCount := attempt - 1,
              lastStartError := if attempt > 1 then lastError else "" }
        match o with
        | .success =>
          ⟨made + 1, sleeps,
           { row1 with
               runtimeState := "running",
               lastStartError := "",
               startRetryCount := attempt - 1 },
           .ok⟩
        | .failure msg =>
          let lastError' := normalize_start_error msg
          let canRetry : Bool :=
            decide (attempt < cfg.maxAttempts) &&
              is_retryable_start_error lastError'
          let row2 : RuntimeStatusRow :=
            { row1 with
                runtimeState := if canRetry then "retrying" else "failed",
                lastStartError := lastError',
                startRetryCount := attempt }
          if canRetry then
            start_attempt_loop cfg rest (attempt + 1) lastError' row2
              (sleeps ++
                [min cfg.maxDelaySec (cfg.baseDelaySec * 2 ^ (attempt - 1))])
              (made + 1)
          else
            ⟨made + 1, sleeps, row2,
             .error ("账号启动失败(重试" ++ toString attempt ++ "/" ++
               toString cfg.maxAttempts ++ "): " ++ lastError')⟩

/-- Source `start_account` retry section, from attempt 1 with a pristine
row. -/
def start_account (cfg : StartRetryConfig) (outcomes : List StartOutcome) :
    StartTrace :=
  start_attempt_loop cfg outcomes 1 "" ⟨"stopped", 0, ""⟩ [] 0

/-! ### State store: user ↔ account bindings
Source: `services/state_store.py` (`QFarmStateStore.bind_account`,
`unbind_account`, `_normalize_owner_bindings`, `_normalize_id`).
Python dicts are insertion-ordered association lists; `_normalize_id` is
`strStrip` (str() of a missing value is "").  `dinsert` overwrites in
place or appends (dict assignment), `dpop` removes (dict.pop),
`dget` looks up (dict.get). -/

def dget {α : Type} : List (String × α) → String → Option α
  | [], _ => none
  | p :: rest, k => if p.1 = k then some p.2 else dget rest k

def dinsert {α : Type} : List (String × α) → String → α → List (String × α)
  | [], k, v => [(k, v)]
  | p :: rest, k, v =>
    if p.1 = k then (k, v) :: rest else p :: dinsert rest k v

def dpop {α : Type} : List (String × α) → String → List (String × α)
  | [], _ => []
  | p :: rest, k => if p.1 = k then dpop rest k else p :: dpop rest k

lemma dget_dinsert {α : Type} (m : List (String × α)) (k : String) (v : α) :
    dget (dinsert m k v) k = some v := by
  induction m with
  | nil => simp [dget, dinsert]
  | cons p rest ih =>
    by_cases hp : p.1 = k
    · simp [dget, dinsert, hp]
    · simp [dget, dinsert, hp, ih]

lemma dget_dinsert_ne {α : Type} (m : List (String × α)) (k k' : String) (v : α)
    (h : k' ≠ k) : dget (dinsert m k v) k' = dget m k' := by
  have h' : ¬ k = k' := fun hh => h hh.symm
  induction m with
  | nil => simp [dget, dinsert, h']
  | cons p rest ih =>
    by_cases hp : p.1 = k
    · subst hp
      simp [dget, dinsert, h']
    · by_cases hp' : p.1 = k'
      · simp [dget, dinsert, hp, hp', h]
      · simp [dget, dinsert, hp, hp', ih]

lemma dget_dpop {α : Type} (m : List (String × α)) (k k' : String) :
    dget (dpop m k) k' = if k' = k then none else dget m k' := by
  induction m with
  | nil => simp [dget, dpop]
  | cons p rest ih =>
    by_cases hp : p.1 = k
    · subst hp
      by_cases hk : k' = p.1
      · subst hk
        simp [dget, dpop, ih]
      · have hk' : ¬ p.1 = k' := fun hh => hk hh.symm
        simp [dget, dpop, hk, hk', ih]
    · by_cases hp' : p.1 = k'
      · have hkk : ¬ k' = k := fun hh => hp ((hp'.trans hh) ▸ rfl)
        simp [dget, dpop, hp, hp', hkk]
      · simp [dget, dpop, hp, hp', ih]

/-- One `owners` entry value (`{account_id, account_name, updated_at}`). -/
structure OwnerInfo where
  account_id : String
  account_name : String
  updated_at : Int
deriving DecidableEq

/-- The `_owner_bindings` dict: `owners: user → info`,
`accountOwners: account → user`. -/
structure OwnerBindings where
  owners : List (String × OwnerInfo)
  accountOwners : List (String × String)
deriving DecidableEq

/-- Source `_normalize_id` applied to a `dict.get` result (`None ↦ ""`). -/
def normOptStr (o : Option String) : String := strStrip (o.getD "")

/-- Source `QFarmStateStore.bind_account` (the in-memory mutation; the
`_save_json` call is the C7 trace). -/
def bind_account (st : OwnerBindings) (user_id account_id account_name : String)
    (now : Int) : Except String OwnerBindings :=
  let uid := strStrip user_id
  let aid := strStrip account_id
  if uid = "" ∨ aid = "" then .error "user_id 和 account_id 不能为空"
  else
    let existed_owner := normOptStr (dget st.accountOwners aid)
    if existed_owner ≠ "" ∧ existed_owner ≠ uid then
      .error ("账号 " ++ aid ++ " 已被用户 " ++ existed_owner ++
        " 绑定，当前策略禁止共享账号")
    else
      let old_aid := normOptStr ((dget st.owners uid).map (fun i => i.account_id))
      let accountOwners1 :=
        if old_aid ≠ "" ∧ old_aid ≠ aid ∧
            normOptStr (dget st.accountOwners old_aid) = uid then
          dpop st.accountOwners old_aid
        else st.accountOwners
      .ok { owners := dinsert st.owners uid ⟨aid, account_name, now⟩,
            accountOwners := dinsert accountOwners1 aid uid }

/-- Source `QFarmStateStore.unbind_account`; returns the new state and the
account id the user was bound to (if any). -/
def unbind_account (st : OwnerBindings) (user_id : String) :
    OwnerBindings × Option String :=
  let uid := strStrip user_id
  if uid = "" then (st, none)
  else
    match dget st.owners uid with
    | none => (st, none)
    | some info =>
      let owners1 := dpop st.owners uid
      let aid := strStrip info.account_id
      let accountOwners1 :=
        if aid ≠ "" ∧ normOptStr (dget st.accountOwners aid) = uid then
          dpop st.accountOwners aid
        else st.accountOwners
      (⟨owners1, accountOwners1⟩, if aid = "" then none else some aid)

/-- Source `QFarmStateStore._normalize_owner_bindings`: clean the raw
`owners`, collect per-account winner candidates (later entries win ties
via `updated_at >= current`), confirm candidates from a raw
`accountOwners` index, then rebuild both maps from the winners. -/
def normalize_owner_bindings (raw_owners : List (String × OwnerInfo))
    (raw_account_owners : List (String × String)) : OwnerBindings :=
  let step1 := raw_owners.foldl
    (fun (acc : List (String × OwnerInfo) × List (String × (String × Int)))
        entry =>
      let uid := strStrip entry.1
      if uid = "" then acc
      else
        let aid := strStrip entry.2.account_id
        if aid = "" then acc
        else
          let info : OwnerInfo := ⟨aid, entry.2.account_name, entry.2.updated_at⟩
          let owners' := dinsert acc.1 uid info
          let cands' :=
            match dget acc.2 aid with
            | none => dinsert acc.2 aid (uid, entry.2.updated_at)
            | some cur =>
              if entry.2.updated_at ≥ cur.2 then
                dinsert acc.2 aid (uid, entry.2.updated_at)
              else acc.2
          (owners', cands'))
    ([], [])
  let owners := step1.1
  let cands := raw_account_owners.foldl
    (fun cands entry =>
      let aid := strStrip entry.1
      let uid := strStrip entry.2
      if aid = "" ∨ uid = "" then cands
      else
        match dget owners uid with
        | none => cands
        | some info =>
          if strStrip info.account_id ≠ aid then cands
          else
            match dget cands aid with
            | none => dinsert cands aid (uid, info.updated_at)
            | some cur =>
              if info.updated_at ≥ cur.2 then
                dinsert cands aid (uid, info.updated_at)
              else cands)
    step1.2
  let final := cands.foldl
    (fun (acc : List (String × OwnerInfo) × List (String × String)) entry =>
      let uid := strStrip entry.2.1
      if uid = "" then acc
      else
        match dget owners uid with
        | none => acc
        | some info => (dinsert acc.1 uid info, dinsert acc.2 entry.1 uid))
    ([], [])
  ⟨final.1, final.2⟩

/-- A stored id is trim-fixed and non-empty. -/
def CleanStr (s : String) : Prop := strStrip s = s ∧ s ≠ ""

/-- Bijectivity of the binding store: both indices agree on every live
entry, and stored ids are normalized. -/
def BindInv (st : OwnerBindings) : Prop :=
  (∀ u info, dget st.owners u = some info →
    CleanStr u ∧ CleanStr info.account_id ∧
      dget st.accountOwners info.account_id = some u) ∧
  (∀ a u, dget st.accountOwners a = some u →
    CleanStr a ∧ CleanStr u ∧
      ∃ info, dget st.owners u = some info ∧ info.account_id = a)

lemma CleanStr_strip {s : String} (h : strStrip s ≠ "") : CleanStr (strStrip s) :=
  ⟨strStrip_idem s, h⟩

lemma normOptStr_some (s : String) : normOptStr (some s) = strStrip s := rfl

lemma normOptStr_none : normOptStr none = "" := rfl

lemma clean_strip_self {s : String} (h : CleanStr s) : strStrip s = s := h.1

lemma bind_preserves_inv (st : OwnerBindings) (user acct name : String)
    (now : Int) (st' : OwnerBindings) (hInv : BindInv st)
    (hok : bind_account st user acct name now = .ok st') : BindInv st' := by
  obtain ⟨h1, h2⟩ := hInv
  simp only [bind_account] at hok
  by_cases h0 : strStrip user = "" ∨ strStrip acct = ""
  · rw [if_pos h0] at hok; cases hok
  · rw [if_neg h0] at hok
    push_neg at h0
    obtain ⟨huid, haid⟩ := h0
    by_cases hex : normOptStr (dget st.accountOwners (strStrip acct)) ≠ "" ∧
        normOptStr (dget st.accountOwners (strStrip acct)) ≠ strStrip user
    · rw [if_pos hex] at hok; cases hok
    · rw [if_neg hex] at hok
      injection hok with hok
      subst hok
      set uid := strStrip user with huiddef
      set aid := strStrip acct with haiddef
      set AO1 := if normOptStr ((dget st.owners uid).map
            (fun i => i.account_id)) ≠ "" ∧
          normOptStr ((dget st.owners uid).map (fun i => i.account_id)) ≠ aid ∧
          normOptStr (dget st.accountOwners
            (normOptStr ((dget st.owners uid).map (fun i => i.account_id)))) = uid
        then dpop st.accountOwners
          (normOptStr ((dget st.owners uid).map (fun i => i.account_id)))
        else st.accountOwners with hAO1
      have hcu : CleanStr uid := CleanStr_strip huid
      have hca : CleanStr aid := CleanStr_strip haid
      -- lookups in AO1 at keys other than the popped one agree with the
      -- original accountOwners, and every hit in AO1 is a hit in the original
      have hAO1sub : ∀ a v, dget AO1 a = some v → dget st.accountOwners a = some v := by
        intro a v hv
        rw [hAO1] at hv
        split at hv
        · rw [dget_dpop] at hv
          split at hv
          · cases hv
          · exact hv
        · exact hv
      constructor
      · intro u info hu
        by_cases hcase : u = uid
        · subst hcase
          rw [dget_dinsert] at hu
          injection hu with hu
          subst hu
          exact ⟨hcu, hca, by rw [dget_dinsert]⟩
        · rw [dget_dinsert_ne _ _ _ _ hcase] at hu
          obtain ⟨hcu', hca', hmap⟩ := h1 u info hu
          refine ⟨hcu', hca', ?_⟩
          have hne_aid : info.account_id ≠ aid := by
            intro hia
            rw [hia] at hmap
            apply hcase
            have : normOptStr (dget st.accountOwners aid) = u := by
              rw [hmap, normOptStr_some, clean_strip_self (h2 aid u hmap).2.1]
            rcases not_and_or.mp hex with hx | hx
            · rw [this] at hx
              exact absurd ((h2 aid u hmap).2.1.2) (by simpa using hx)
            · rw [this] at hx
              simpa using hx
          rw [dget_dinsert_ne _ _ _ _ hne_aid, hAO1]
          split
          · next hpop =>
            rw [dget_dpop, if_neg, hmap]
            intro hcontra
            -- info.account_id = old_aid would force u = uid
            obtain ⟨hone, htwo, hthree⟩ := hpop
            rw [hcontra] at hmap
            have : normOptStr (dget st.accountOwners
                (normOptStr ((dget st.owners uid).map (fun i => i.account_id)))) = u := by
              rw [hmap, normOptStr_some,
                clean_strip_self (h2 _ u hmap).2.1]
            rw [hthree] at this
            exact hcase this.symm
          · exact hmap
      · intro a v hv
        by_cases hcase : a = aid
        · subst hcase
          rw [dget_dinsert] at hv
          injection hv with hv
          subst hv
          exact ⟨hca, hcu, ⟨aid, name, now⟩, by rw [dget_dinsert], rfl⟩
        · rw [dget_dinsert_ne _ _ _ _ hcase] at hv
          have hv' := hAO1sub a v hv
          obtain ⟨hca', hcv, i0, hi0, hia⟩ := h2 a v hv'
          have hvne : v ≠ uid := by
            intro hveq
            subst hveq
            -- v = uid: the old binding's accountOwners entry must have been
            -- popped, but it is still present in AO1
            have hold : normOptStr ((dget st.owners uid).map
                (fun i => i.account_id)) = a := by
              rw [hi0, show (some i0).map (fun i : OwnerInfo => i.account_id) =
                some i0.account_id from rfl,
                normOptStr_some, clean_strip_self (h1 uid i0 hi0).2.1, hia]
            rw [hAO1] at hv
            split at hv
            · next hpop =>
              rw [hold] at hv
              rw [dget_dpop, if_pos rfl] at hv
              cases hv
            · next hpop =>
              refine absurd ⟨?_, ?_, ?_⟩ hpop
              · rw [hold]; exact hca'.2
              · rw [hold]; exact hcase
              · rw [hold, hv, normOptStr_some]
                exact clean_strip_self hcu
          refine ⟨hca', hcv, i0, ?_, hia⟩
          rw [dget_dinsert_ne _ _ _ _ hvne]
          exact hi0

lemma unbind_preserves_inv (st : OwnerBindings) (user : String)
    (hInv : BindInv st) : BindInv (unbind_account st user).1 := by
  obtain ⟨h1, h2⟩ := hInv
  simp only [unbind_account]
  by_cases h0 : strStrip user = ""
  · rw [if_pos h0]; exact ⟨h1, h2⟩
  · rw [if_neg h0]
    rcases hg : dget st.owners (strStrip user) with _ | info
    · simp only [hg]; exact ⟨h1, h2⟩
    · simp only [hg]
      obtain ⟨hcu, hci, hmap⟩ := h1 _ info hg
      have hcond : strStrip info.account_id ≠ "" ∧
          normOptStr (dget st.accountOwners (strStrip info.account_id)) =
            strStrip user := by
        rw [hci.1]
        refine ⟨hci.2, ?_⟩
        rw [hmap, normOptStr_some, clean_strip_self hcu]
      rw [if_pos hcond]
      constructor
      · intro u i hu
        rw [dget_dpop] at hu
        split at hu
        · cases hu
        · next hune =>
          obtain ⟨cu', ci', hm'⟩ := h1 u i hu
          refine ⟨cu', ci', ?_⟩
          rw [dget_dpop, hci.1, if_neg, hm']
          intro hia
          rw [hia] at hm'
          rw [hm'] at hmap
          injection hmap with hmap
          exact hune hmap
      · intro a v hv
        rw [dget_dpop, hci.1] at hv
        split at hv
        · cases hv
        · next hane =>
          obtain ⟨ca', cv', i0, hio, hia⟩ := h2 a v hv
          have hvne : ¬ v = strStrip user := by
            intro hveq
            rw [hveq, hg] at hio
            injection hio with hio
            exact hane (by rw [hio]; exact hia.symm)
          refine ⟨ca', cv', i0, ?_, hia⟩
          rw [dget_dpop, if_neg hvne]
          exact hio

lemma bind_fails_foreign (st : OwnerBindings) (user acct name : String)
    (now : Int) (w : String) (hInv : BindInv st)
    (huid : strStrip user ≠ "") (haid : strStrip acct ≠ "")
    (hw : dget st.accountOwners (strStrip acct) = some w)
    (hne : w ≠ strStrip user) :
    ∃ e, bind_account st user acct name now = .error e := by
  obtain ⟨h1, h2⟩ := hInv
  have hcw := (h2 _ w hw).2.1
  have hcond : normOptStr (dget st.accountOwners (strStrip acct)) ≠ "" ∧
      normOptStr (dget st.accountOwners (strStrip acct)) ≠ strStrip user := by
    rw [hw, normOptStr_some, clean_strip_self hcw]
    exact ⟨hcw.2, hne⟩
  refine ⟨"账号 " ++ strStrip acct ++ " 已被用户 " ++
    normOptStr (dget st.accountOwners (strStrip acct)) ++
    " 绑定，当前策略禁止共享账号", ?_⟩
  simp only [bind_account]
  rw [if_neg (by push_neg; exact ⟨huid, haid⟩), if_pos hcond]

lemma bind_success_mappings (st : OwnerBindings) (user acct name : String)
    (now : Int) (st' : OwnerBindings) (hInv : BindInv st)
    (hok : bind_account st user acct name now = .ok st') :
    dget st'.owners (strStrip user) = some ⟨strStrip acct, name, now⟩ ∧
    dget st'.accountOwners (strStrip acct) = some (strStrip user) ∧
    ∀ oldInfo, dget st.owners (strStrip user) = some oldInfo →
      oldInfo.account_id ≠ strStrip acct →
      dget st'.accountOwners oldInfo.account_id = none := by
  obtain ⟨h1, h2⟩ := hInv
  simp only [bind_account] at hok
  by_cases h0 : strStrip user = "" ∨ strStrip acct = ""
  · rw [if_pos h0] at hok; cases hok
  · rw [if_neg h0] at hok
    by_cases hex : normOptStr (dget st.accountOwners (strStrip acct)) ≠ "" ∧
        normOptStr (dget st.accountOwners (strStrip acct)) ≠ strStrip user
    · rw [if_pos hex] at hok; cases hok
    · rw [if_neg hex] at hok
      injection hok with hok
      subst hok
      refine ⟨by rw [dget_dinsert], by rw [dget_dinsert], ?_⟩
      intro oldInfo hold hne
      obtain ⟨hcu, hci, hmap⟩ := h1 _ oldInfo hold
      have holdaid : normOptStr ((dget st.owners (strStrip user)).map
          (fun i => i.account_id)) = oldInfo.account_id := by
        rw [hold, show (some oldInfo).map (fun i : OwnerInfo => i.account_id) =
          some oldInfo.account_id from rfl,
          normOptStr_some, clean_strip_self hci]
      have hcond : normOptStr ((dget st.owners (strStrip user)).map
            (fun i => i.account_id)) ≠ "" ∧
          normOptStr ((dget st.owners (strStrip user)).map
            (fun i => i.account_id)) ≠ strStrip acct ∧
          normOptStr (dget st.accountOwners
            (normOptStr ((dget st.owners (strStrip user)).map
              (fun i => i.account_id)))) = strStrip user := by
        refine ⟨by rw [holdaid]; exact hci.2, by rw [holdaid]; exact hne, ?_⟩
        rw [holdaid, hmap, normOptStr_some, clean_strip_self hcu]
      rw [dget_dinsert_ne _ _ _ _ hne, if_pos hcond, holdaid, dget_dpop,
        if_pos rfl]

lemma BindInv_singleton (u a n : String) (t : Int)
    (hcu : CleanStr u) (hca : CleanStr a) :
    BindInv ⟨[(u, ⟨a, n, t⟩)], [(a, u)]⟩ := by
  constructor
  · intro u' info hu
    simp only [dget] at hu
    split at hu
    · next heq =>
      injection hu with hu
      subst hu
      subst heq
      exact ⟨hcu, hca, by simp [dget]⟩
    · cases hu
  · intro a' v hv
    simp only [dget] at hv
    split at hv
    · next heq =>
      injection hv with hv
      subst hv
      subst heq
      exact ⟨hca, hcu, ⟨a, n, t⟩, by simp [dget], rfl⟩
    · cases hv

lemma normalize_two_users (u1 u2 a n1 n2 : String) (t1 t2 : Int)
    (hc1 : CleanStr u1) (hc2 : CleanStr u2) (hca : CleanStr a) (hne : u1 ≠ u2) :
    (t1 ≤ t2 →
      normalize_owner_bindings [(u1, ⟨a, n1, t1⟩), (u2, ⟨a, n2, t2⟩)] [] =
        ⟨[(u2, ⟨a, n2, t2⟩)], [(a, u2)]⟩) ∧
    (t2 < t1 →
      normalize_owner_bindings [(u1, ⟨a, n1, t1⟩), (u2, ⟨a, n2, t2⟩)] [] =
        ⟨[(u1, ⟨a, n1, t1⟩)], [(a, u1)]⟩) := by
  have hne' : ¬ u1 = u2 := hne
  have hne'' : ¬ u2 = u1 := fun h => hne h.symm
  constructor
  · intro ht
    simp [normalize_owner_bindings, dget, dinsert, hc1.1, hc1.2, hc2.1, hc2.2,
      hca.1, hca.2, hne', hne'', ht]
  · intro ht
    simp [normalize_owner_bindings, dget, dinsert, hc1.1, hc1.2, hc2.1, hc2.2,
      hca.1, hca.2, hne', hne'', not_le.mpr ht]

/-- C5 counterexample: a legacy file whose raw `owners` keys `" u1"` and
`"u1"` both normalize to user `u1` (with different accounts) is normalized
into a store where `accountOwners["a1"] = "u1"` but
`owners["u1"].account_id = "a2"` — the loaded store is not bijective, so
"bijective at every moment" fails on the code's load path. -/
theorem normalize_bindings_not_bijective_counterexample :
    dget (normalize_owner_bindings
        [(" u1", ⟨"a1", "", 5⟩), ("u1", ⟨"a2", "", 3⟩)] []).accountOwners "a1" =
      some "u1" ∧
    dget (normalize_owner_bindings
        [(" u1", ⟨"a1", "", 5⟩), ("u1", ⟨"a2", "", 3⟩)] []).owners "u1" =
      some ⟨"a2", "", 3⟩ ∧
    ¬ BindInv (normalize_owner_bindings
        [(" u1", ⟨"a1", "", 5⟩), ("u1", ⟨"a2", "", 3⟩)] []) := by
  refine ⟨by decide, by decide, ?_⟩
  rintro ⟨-, h2⟩
  obtain ⟨-, -, info, hi, hia⟩ := h2 "a1" "u1" (by decide)
  rw [show dget (normalize_owner_bindings
      [(" u1", ⟨"a1", "", 5⟩), ("u1", ⟨"a2", "", 3⟩)] []).owners "u1" =
    some ⟨"a2", "", 3⟩ from by decide] at hi
  injection hi with hi
  rw [← hi] at hia
  exact absurd hia (by decide)

/-- C5 amended: the binding store is bijective (`BindInv`: both indices
agree on every live entry) in the empty store and in every singleton
store, and bijectivity is preserved by `bind_account` and
`unbind_account`; `bind_account` fails when the account is owned by a
different user; a successful bind installs both index entries and removes
the user's previous `accountOwners` entry in the same mutation; and a
legacy file binding two users (distinct after trimming) to the same
account keeps exactly the binding with the higher `updated_at` (the later
entry on a tie).  Load normalization does not guarantee bijectivity when
two raw owner keys normalize to the same user id (see the
counterexample), which is the only weakening of the original claim. -/
theorem binding_bijectivity :
    BindInv ⟨[], []⟩ ∧
    (∀ st user acct name now st', BindInv st →
      bind_account st user acct name now = .ok st' → BindInv st') ∧
    (∀ st user, BindInv st → BindInv (unbind_account st user).1) ∧
    (∀ st user acct name now w, BindInv st →
      strStrip user ≠ "" → strStrip acct ≠ "" →
      dget st.accountOwners (strStrip acct) = some w → w ≠ strStrip user →
      ∃ e, bind_account st user acct name now = .error e) ∧
    (∀ st user acct name now st', BindInv st →
      bind_account st user acct name now = .ok st' →
      dget st'.owners (strStrip user) = some ⟨strStrip acct, name, now⟩ ∧
      dget st'.accountOwners (strStrip acct) = some (strStrip user) ∧
      ∀ oldInfo, dget st.owners (strStrip user) = some oldInfo →
        oldInfo.account_id ≠ strStrip acct →
        dget st'.accountOwners oldInfo.account_id = none) ∧
    (∀ u1 u2 a n1 n2 t1 t2, CleanStr u1 → CleanStr u2 → CleanStr a →
      u1 ≠ u2 →
      (t1 ≤ t2 →
        normalize_owner_bindings [(u1, ⟨a, n1, t1⟩), (u2, ⟨a, n2, t2⟩)] [] =
          ⟨[(u2, ⟨a, n2, t2⟩)], [(a, u2)]⟩) ∧
      (t2 < t1 →
        normalize_owner_bindings [(u1, ⟨a, n1, t1⟩), (u2, ⟨a, n2, t2⟩)] [] =
          ⟨[(u1, ⟨a, n1, t1⟩)], [(a, u1)]⟩)) ∧
    (∀ u a n t, CleanStr u → CleanStr a →
      BindInv ⟨[(u, ⟨a, n, t⟩)], [(a, u)]⟩) := by
  refine ⟨?_, ?_, ?_, ?_, ?_, ?_, ?_⟩
  · constructor
    · intro u info h; cases h
    · intro a u h; cases h
  · intro st user acct name now st' hInv hok
    exact bind_preserves_inv st user acct name now st' hInv hok
  · intro st user hInv
    exact unbind_preserves_inv st user hInv
  · intro st user acct name now w hInv huid haid hw hne
    exact bind_fails_foreign st user acct name now w hInv huid haid hw hne
  · intro st user acct name now st' hInv hok
    exact bind_success_mappings st user acct name now st' hInv hok
  · intro u1 u2 a n1 n2 t1 t2 hc1 hc2 hca hne
    exact normalize_two_users u1 u2 a n1 n2 t1 t2 hc1 hc2 hca hne
  · intro u a n t hcu hca
    exact BindInv_singleton u a n t hcu hca

/-- Witness for C5: binding `u1 → acc-1` into the empty store yields a
bijective store; binding `u1` to an account already owned by `u2` fails;
and the two-user legacy file resolves to the higher `updated_at`. -/
theorem binding_bijectivity_witness :
    BindInv ⟨[("u1", ⟨"acc-1", "A", 5⟩)], [("acc-1", "u1")]⟩ ∧
    (∃ e, bind_account ⟨[("u2", ⟨"acc-1", "B", 1⟩)], [("acc-1", "u2")]⟩
      "u1" "acc-1" "C" 9 = .error e) ∧
    normalize_owner_bindings
        [("u1", ⟨"acc-1", "", 1⟩), ("u2", ⟨"acc-1", "", 2⟩)] [] =
      ⟨[("u2", ⟨"acc-1", "", 2⟩)], [("acc-1", "u2")]⟩ :=
  ⟨binding_bijectivity.2.1 ⟨[], []⟩ "u1" "acc-1" "A" 5
      ⟨[("u1", ⟨"acc-1", "A", 5⟩)], [("acc-1", "u1")]⟩
      binding_bijectivity.1 rfl,
   binding_bijectivity.2.2.2.1 ⟨[("u2", ⟨"acc-1", "B", 1⟩)], [("acc-1", "u2")]⟩
      "u1" "acc-1" "C" 9 "u2"
      (binding_bijectivity.2.2.2.2.2.2 "u2" "acc-1" "B" 1
        ⟨by decide, by decide⟩ ⟨by decide, by decide⟩)
      (by decide) (by decide) (by decide) (by decide),
   (binding_bijectivity.2.2.2.2.2.1 "u1" "u2" "acc-1" "" "" 1 2
      ⟨by decide, by decide⟩ ⟨by decide, by decide⟩ ⟨by decide, by decide⟩
      (by decide)).1 (by decide)⟩

/-! ### Analytics
Source: `services/domain/analytics_service.py` (`AnalyticsService
.get_plant_rankings`, `_parse_grow_time`,
`_parse_normal_fertilizer_reduce_sec`, `_format_seconds`).  Python float
arithmetic is modelled over ℚ; `int(base_grow * 1.5)` is exact in IEEE
doubles for game-sized ints and equals truncated `(3*base_grow)/2`;
`round(x, 2)` is round-half-to-even on `x*100` (theorems avoid float
midpoints).  The config lookups `get_fruit_price` / `get_seed_price` are
parameters. -/

/-- Source `_parse_grow_time`: sum over `;`-segments of the integer after
the segment's last `:`; blank, colon-free or unparsable segments are
skipped. -/
def parse_grow_time (grow_phases : String) : Int :=
  if grow_phases = "" then 0
  else
    ((splitOnChar ';' grow_phases.data).map (fun seg =>
      let seg' := trimChars seg
      if seg' = [] then 0
      else if seg'.contains ':' = false then 0
      else
        match (splitOnChar ':' seg').getLast? with
        | some last => (pyInt? ⟨last⟩).getD 0
        | none => 0)).sum

/-- Source `_parse_normal_fertilizer_reduce_sec`: the integer after the
last `:` of the first `;`-segment (not stripped), else 0. -/
def parse_normal_fertilizer_reduce_sec (grow_phases : String) : Int :=
  if grow_phases = "" then 0
  else
    let first := (splitOnChar ';' grow_phases.data).headI
    if first.contains ':' = false then 0
    else
      match (splitOnChar ':' first).getLast? with
      | some last => (pyInt? ⟨last⟩).getD 0
      | none => 0

/-- Source `_format_seconds`. -/
def format_seconds (seconds : Int) : String :=
  let sec := max 0 seconds
  if sec < 60 then toString sec ++ "秒"
  else if sec < 3600 then toString (sec / 60) ++ "分" ++ toString (sec % 60) ++ "秒"
  else
    let h := sec / 3600
    let m := (sec % 3600) / 60
    if m ≠ 0 then toString h ++ "时" ++ toString m ++ "分" else toString h ++ "时"

/-- One `Plant.json` entry, already coerced the way the source reads it
(`int(plant.get(...) or 0)`, nested `fruit` dict flattened). -/
structure PlantCfg where
  id : Int
  seed_id : Int
  grow_phases : String
  seasons : Int
  exp : Int
  name : String
  land_level_need : Int
  fruit_id : Int
  fruit_count : Int

/-- One row of the ranking, with the fields the source emits. -/
structure RankRow where
  id : Int
  seedId : Int
  name : String
  seasons : Int
  level : Int
  growTime : Int
  growTimeStr : String
  reduceSec : Int
  reduceSecApplied : Int
  expPerHour : ℚ
  normalFertilizerExpPerHour : ℚ
  goldPerHour : ℚ
  profitPerHour : ℚ
  normalFertilizerProfitPerHour : ℚ
  income : Int
  netProfit : Int
  fruitId : Int
  fruitCount : Int
  fruitPrice : Int
  seedPrice : Int

/-- Python `round(x, 2)` over ℚ: round half to even at two decimals. -/
def round2 (q : ℚ) : ℚ :=
  let n : Int := ⌊q * 100⌋
  let frac := q * 100 - n
  (if frac < 1/2 then (n : ℚ)
   else if frac > 1/2 then (n + 1 : Int)
   else if n % 2 = 0 then (n : ℚ) else (n + 1 : Int)) / 100

/-- Source filter conditions of the `get_plant_rankings` loop (`continue`
branches): positive ids, `str(plant_id).startswith("102")`, seed id in
[20000, 30000), positive total grow time. -/
def plant_passes_filter (plant : PlantCfg) : Bool :=
  decide (0 < plant.id) && decide (0 < plant.seed_id) &&
  decide ("102".data <+: (toString plant.id).data) &&
  (decide (20000 ≤ plant.seed_id) && decide (plant.seed_id < 30000)) &&
  decide (0 < parse_grow_time plant.grow_phases)

/-- The loop body of `get_plant_rankings` for one plant that passed the
filter: the row it appends.  `int(x or 1)` for `seasons` maps 0 to 1. -/
def plant_rank_row (fruitPrice seedPrice : Int → Int) (plant : PlantCfg) :
    RankRow :=
  let base_grow := parse_grow_time plant.grow_phases
  let seasons := if plant.seasons = 0 then 1 else plant.seasons
  let is_two := seasons = 2
  let grow_time := if is_two then Int.div (3 * base_grow) 2 else base_grow
  let base_exp := plant.exp
  let harvest_exp := if is_two then base_exp * 2 else base_exp
  let exp_per_hour : ℚ := ((harvest_exp : ℚ) / ((max 1 grow_time : Int) : ℚ)) * 3600
  let reduce_base := parse_normal_fertilizer_reduce_sec plant.grow_phases
  let reduce_applied := if is_two then reduce_base * 2 else reduce_base
  let fert_time := max 1 (grow_time - reduce_applied)
  let fert_exp_per_hour : ℚ := ((harvest_exp : ℚ) / ((fert_time : Int) : ℚ)) * 3600
  let fruit_price := fruitPrice plant.fruit_id
  let seed_price := seedPrice plant.seed_id
  let income := plant.fruit_count * fruit_price * (if is_two then 2 else 1)
  let net_profit := income - seed_price
  let gold_per_hour : ℚ := ((income : ℚ) / ((max 1 grow_time : Int) : ℚ)) * 3600
  let profit_per_hour : ℚ := ((net_profit : ℚ) / ((max 1 grow_time : Int) : ℚ)) * 3600
  let fert_profit_per_hour : ℚ := ((net_profit : ℚ) / ((fert_time : Int) : ℚ)) * 3600
  { id := plant.id
    seedId := plant.seed_id
    name := if plant.name = "" then "作物" ++ toString plant.seed_id else plant.name
    seasons := seasons
    level := plant.land_level_need
    growTime := grow_time
    growTimeStr := format_seconds grow_time
    reduceSec := reduce_base
    reduceSecApplied := reduce_applied
    expPerHour := round2 exp_per_hour
    normalFertilizerExpPerHour := round2 fert_exp_per_hour
    goldPerHour := round2 gold_per_hour
    profitPerHour := round2 profit_per_hour
    normalFertilizerProfitPerHour := round2 fert_profit_per_hour
    income := income
    netProfit := net_profit
    fruitId := plant.fruit_id
    fruitCount := plant.fruit_count
    fruitPrice := fruit_price
    seedPrice := seed_price }

/-- Source sort-key table (`expPerHour` is the default for unknown keys;
`float(...)` of the chosen field). -/
def rank_sort_key (sort_by : String) (r : RankRow) : ℚ :=
  if sort_by = "exp" then r.expPerHour
  else if sort_by = "fert" then r.normalFertilizerExpPerHour
  else if sort_by = "gold" then r.goldPerHour
  else if sort_by = "profit" then r.profitPerHour
  else if sort_by = "fert_profit" then r.normalFertilizerProfitPerHour
  else if sort_by = "level" then (r.level : ℚ)
  else r.expPerHour

/-- Source `AnalyticsService.get_plant_rankings`: filter, build rows, then
`rows.sort(key=..., reverse=True)` (a stable descending sort). -/
def get_plant_rankings (plants : List PlantCfg) (fruitPrice seedPrice : Int → Int)
    (sort_by : String) : List RankRow :=
  ((plants.filter (fun p => plant_passes_filter p)).map
      (plant_rank_row fruitPrice seedPrice)).mergeSort
    (fun a b => decide (rank_sort_key sort_by b ≤ rank_sort_key sort_by a))

/-! Spec-side formulas for the claim, written from its words: total grow
time (scaled ×1.5 for seasons-2 plants), harvest exp (×2), applied
first-phase reduction (the code doubles it for seasons-2 — the amended
part), the clamped fertilizer time base, income and net profit. -/

def claim_seasons (p : PlantCfg) : Int := if p.seasons = 0 then 1 else p.seasons

def claim_total_grow_time (p : PlantCfg) : Int :=
  if claim_seasons p = 2 then Int.div (3 * parse_grow_time p.grow_phases) 2
  else parse_grow_time p.grow_phases

def claim_harvest_exp (p : PlantCfg) : Int :=
  if claim_seasons p = 2 then p.exp * 2 else p.exp

def claim_reduce_applied (p : PlantCfg) : Int :=
  if claim_seasons p = 2 then parse_normal_fertilizer_reduce_sec p.grow_phases * 2
  else parse_normal_fertilizer_reduce_sec p.grow_phases

def claim_fert_time (p : PlantCfg) : Int :=
  max 1 (claim_total_grow_time p - claim_reduce_applied p)

def claim_income (fruitPrice : Int → Int) (p : PlantCfg) : Int :=
  p.fruit_count * fruitPrice p.fruit_id * (if claim_seasons p = 2 then 2 else 1)

def claim_net_profit (fruitPrice seedPrice : Int → Int) (p : PlantCfg) : Int :=
  claim_income fruitPrice p - seedPrice p.seed_id

/-! ### Theorems: analytics ranking (C6) -/

/-- C6 counterexample: a seasons-2 plant (phases 1000 s + 2000 s, exp 100)
is included in the ranking, and the code computes its normal-fertilizer
exp/hour over `max 1 (growTime - 2·firstPhase)` = 2500 s, giving 288 —
not over `growTime - firstPhase` = 3500 s as the claim states, which
would give 205.71. -/
theorem analytics_fert_time_counterexample :
    plant_passes_filter ⟨10201, 20001, "1:1000;2:2000", 2, 100, "x", 1, 5, 3⟩ = true ∧
    (plant_rank_row (fun _ => 10) (fun _ => 50)
        ⟨10201, 20001, "1:1000;2:2000", 2, 100, "x", 1, 5, 3⟩).normalFertilizerExpPerHour
      = 288 ∧
    round2 (((claim_harvest_exp
          ⟨10201, 20001, "1:1000;2:2000", 2, 100, "x", 1, 5, 3⟩ : Int) : ℚ) /
        (((claim_total_grow_time
            ⟨10201, 20001, "1:1000;2:2000", 2, 100, "x", 1, 5, 3⟩ -
          parse_normal_fertilizer_reduce_sec "1:1000;2:2000" : Int)) : ℚ) * 3600)
      = 20571 / 100 ∧
    (288 : ℚ) ≠ 20571 / 100 := by
  have hg : parse_grow_time "1:1000;2:2000" = 3000 := by decide
  have hr : parse_normal_fertilizer_reduce_sec "1:1000;2:2000" = 1000 := by decide
  have hd : Int.div 9000 2 = 4500 := by decide
  refine ⟨by decide, ?_, ?_, by norm_num⟩
  · simp only [plant_rank_row, hg, hr]
    norm_num [hd, round2]
  · simp only [claim_harvest_exp, claim_total_grow_time, claim_seasons, hg, hr]
    norm_num [hd, round2]

/-- C6 amended: the ranking rows are exactly the rows of the plants that
pass the filter (id positive and starting "102", seed id in
[20000, 30000), positive total grow time); the list is sorted descending
by the requested sort key; and the normal-fertilizer exp/profit variants
are computed over `max 1 (totalGrowTime - reduceApplied)` seconds, where
`totalGrowTime` is scaled ×1.5 and the first-phase reduction doubled for
seasons-2 plants (fruit count and exp also ×2 via income/harvest exp). -/
theorem analytics_plant_rankings (plants : List PlantCfg)
    (fruitPrice seedPrice : Int → Int) (sort_by : String) :
    List.Pairwise (fun a b => rank_sort_key sort_by b ≤ rank_sort_key sort_by a)
      (get_plant_rankings plants fruitPrice seedPrice sort_by) ∧
    (∀ r, r ∈ get_plant_rankings plants fruitPrice seedPrice sort_by ↔
      ∃ p, p ∈ plants ∧ plant_passes_filter p = true ∧
        r = plant_rank_row fruitPrice seedPrice p) ∧
    (∀ p, plant_passes_filter p = true ↔
      (0 < p.id ∧ 0 < p.seed_id ∧ "102".data <+: (toString p.id).data ∧
        20000 ≤ p.seed_id ∧ p.seed_id < 30000 ∧
        0 < parse_grow_time p.grow_phases)) ∧
    (∀ p,
      (plant_rank_row fruitPrice seedPrice p).normalFertilizerExpPerHour =
        round2 (((claim_harvest_exp p : Int) : ℚ) /
          ((claim_fert_time p : Int) : ℚ) * 3600) ∧
      (plant_rank_row fruitPrice seedPrice p).normalFertilizerProfitPerHour =
        round2 (((claim_net_profit fruitPrice seedPrice p : Int) : ℚ) /
          ((claim_fert_time p : Int) : ℚ) * 3600)) := by
  refine ⟨?_, ?_, ?_, ?_⟩
  · have htrans : ∀ a b c : RankRow,
        decide (rank_sort_key sort_by b ≤ rank_sort_key sort_by a) = true →
        decide (rank_sort_key sort_by c ≤ rank_sort_key sort_by b) = true →
        decide (rank_sort_key sort_by c ≤ rank_sort_key sort_by a) = true := by
      intro a b c h1 h2
      simp only [decide_eq_true_eq] at h1 h2 ⊢
      exact le_trans h2 h1
    have htot : ∀ a b : RankRow,
        (decide (rank_sort_key sort_by b ≤ rank_sort_key sort_by a) ||
          decide (rank_sort_key sort_by a ≤ rank_sort_key sort_by b)) = true := by
      intro a b
      simp only [Bool.or_eq_true, decide_eq_true_eq]
      exact le_total _ _
    have hs := List.sorted_mergeSort htrans htot
      ((plants.filter (fun p => plant_passes_filter p)).map
        (plant_rank_row fruitPrice seedPrice))
    rw [get_plant_rankings]
    exact hs.imp (fun h => by simpa using h)
  · intro r
    rw [get_plant_rankings, (List.mergeSort_perm _ _).mem_iff]
    simp only [List.mem_map, List.mem_filter]
    constructor
    · rintro ⟨p, ⟨hp, hpass⟩, rfl⟩
      exact ⟨p, hp, hpass, rfl⟩
    · rintro ⟨p, hp, hpass, rfl⟩
      exact ⟨p, ⟨hp, hpass⟩, rfl⟩
  · intro p
    simp [plant_passes_filter, Bool.and_eq_true, decide_eq_true_eq, and_assoc]
  · intro p
    exact ⟨rfl, rfl⟩

/-! ### Theorems: start retry (C4) -/

lemma start_loop_success (cfg : StartRetryConfig) :
    ∀ (msgs : List String) (a : Nat) (lastError : String)
      (row : RuntimeStatusRow) (sleeps : List ℚ) (made : Nat),
      1 ≤ a → a + msgs.length ≤ cfg.maxAttempts →
      (∀ m ∈ msgs, is_retryable_start_error (normalize_start_error m) = true) →
      start_attempt_loop cfg (msgs.map .failure ++ [.success]) a lastError row
          sleeps made =
        ⟨made + msgs.length + 1,
         sleeps ++ (List.range msgs.length).map
           (fun i => min cfg.maxDelaySec (cfg.baseDelaySec * 2 ^ (a - 1 + i))),
         ⟨"running", a + msgs.length - 1, ""⟩,
         .ok⟩ := by
  intro msgs
  induction msgs with
  | nil =>
    intro a lastError row sleeps made ha hle _
    have hng : ¬ a > cfg.maxAttempts := by simp at hle; omega
    simp [start_attempt_loop, hng]
  | cons m msgs ih =>
    intro a lastError row sleeps made ha hle hret
    simp only [List.length_cons] at hle
    have hng : ¬ a > cfg.maxAttempts := by omega
    have hlt : a < cfg.maxAttempts := by omega
    have hr := hret m (List.mem_cons_self _ _)
    rw [show (m :: msgs).map StartOutcome.failure ++ [StartOutcome.success] =
        .failure m :: (msgs.map .failure ++ [.success]) from by simp]
    rw [start_attempt_loop]
    simp only [if_neg hng, hlt, hr, decide_True, Bool.true_and, if_true]
    rw [ih (a + 1) (normalize_start_error m) _ _ (made + 1) (by omega)
      (by omega) (fun x hx => hret x (List.mem_cons_of_mem _ hx))]
    have hn1 : made + 1 + msgs.length + 1 = made + (m :: msgs).length + 1 := by
      simp only [List.length_cons]; omega
    have hn2 : a + 1 + msgs.length - 1 = a + (m :: msgs).length - 1 := by
      simp only [List.length_cons]; omega
    have hsl : (sleeps ++
          [min cfg.maxDelaySec (cfg.baseDelaySec * 2 ^ (a - 1))]) ++
        (List.range msgs.length).map
          (fun i => min cfg.maxDelaySec (cfg.baseDelaySec * 2 ^ (a + 1 - 1 + i)))
        = sleeps ++ (List.range (m :: msgs).length).map
          (fun i => min cfg.maxDelaySec (cfg.baseDelaySec * 2 ^ (a - 1 + i))) := by
      simp only [List.length_cons]
      rw [List.range_succ_eq_map, List.map_cons, List.map_map,
        List.append_assoc, List.singleton_append]
      refine congrArg (fun z => sleeps ++ z) ?_
      simp only [List.cons.injEq]
      refine ⟨by norm_num, ?_⟩
      refine List.map_congr_left ?_
      intro i _
      have he : a - 1 + (i + 1) = a + i := by omega
      simp [Function.comp, he]
    rw [hn1, hn2, hsl]

lemma start_loop_fail (cfg : StartRetryConfig) :
    ∀ (msgs : List String) (bad : String) (rest : List StartOutcome)
      (a : Nat) (lastError : String) (row : RuntimeStatusRow)
      (sleeps : List ℚ) (made : Nat),
      1 ≤ a → a + msgs.length ≤ cfg.maxAttempts →
      (∀ m ∈ msgs, is_retryable_start_error (normalize_start_error m) = true) →
      is_retryable_start_error (normalize_start_error bad) = false →
      start_attempt_loop cfg (msgs.map .failure ++ .failure bad :: rest) a
          lastError row sleeps made =
        ⟨made + msgs.length + 1,
         sleeps ++ (List.range msgs.length).map
           (fun i => min cfg.maxDelaySec (cfg.baseDelaySec * 2 ^ (a - 1 + i))),
         ⟨"failed", a + msgs.length, normalize_start_error bad⟩,
         .error ("账号启动失败(重试" ++ toString (a + msgs.length) ++ "/" ++
           toString cfg.maxAttempts ++ "): " ++ normalize_start_error bad)⟩ := by
  intro msgs
  induction msgs with
  | nil =>
    intro bad rest a lastError row sleeps made ha hle _ hbad
    have hng : ¬ a > cfg.maxAttempts := by simp at hle; omega
    rw [show ([] : List String).map StartOutcome.failure ++
        .failure bad :: rest = .failure bad :: rest from by simp]
    rw [start_attempt_loop]
    simp [hng, hbad]
  | cons m msgs ih =>
    intro bad rest a lastError row sleeps made ha hle hret hbad
    simp only [List.length_cons] at hle
    have hng : ¬ a > cfg.maxAttempts := by omega
    have hlt : a < cfg.maxAttempts := by omega
    have hr := hret m (List.mem_cons_self _ _)
    rw [show (m :: msgs).map StartOutcome.failure ++ .failure bad :: rest =
        .failure m :: (msgs.map .failure ++ .failure bad :: rest) from by simp]
    rw [start_attempt_loop]
    simp only [if_neg hng, hlt, hr, decide_True, Bool.true_and, if_true]
    rw [ih bad rest (a + 1) (normalize_start_error m) _ _ (made + 1) (by omega)
      (by omega) (fun x hx => hret x (List.mem_cons_of_mem _ hx)) hbad]
    have hn1 : made + 1 + msgs.length + 1 = made + (m :: msgs).length + 1 := by
      simp only [List.length_cons]; omega
    have hn2 : a + 1 + msgs.length = a + (m :: msgs).length := by
      simp only [List.length_cons]; omega
    have hsl : (sleeps ++
          [min cfg.maxDelaySec (cfg.baseDelaySec * 2 ^ (a - 1))]) ++
        (List.range msgs.length).map
          (fun i => min cfg.maxDelaySec (cfg.baseDelaySec * 2 ^ (a + 1 - 1 + i)))
        = sleeps ++ (List.range (m :: msgs).length).map
          (fun i => min cfg.maxDelaySec (cfg.baseDelaySec * 2 ^ (a - 1 + i))) := by
      simp only [List.length_cons]
      rw [List.range_succ_eq_map, List.map_cons, List.map_map,
        List.append_assoc, List.singleton_append]
      refine congrArg (fun z => sleeps ++ z) ?_
      simp only [List.cons.injEq]
      refine ⟨by norm_num, ?_⟩
      refine List.map_congr_left ?_
      intro i _
      have he : a - 1 + (i + 1) = a + i := by omega
      simp [Function.comp, he]
    rw [hn1, hn2, hsl]

/-- C4: with max attempts M, (a) if the first k-1 attempts fail with
errors whose normalized text classifies as retryable and attempt k
succeeds (k ≤ M), exactly k attempts are made, the status row ends
runtimeState "running" with startRetryCount = k-1 and empty
lastStartError, and each retry is preceded by a sleep of
min(maxDelay, baseDelay·2^(attempt-1)); (b) if after such retries an
attempt fails with an error whose normalized text is non-retryable (or
unclassified), no further attempt is made, the row ends "failed", and the
raised message contains "(重试attempt/M)" and the normalized reason —
classification always runs on the already-normalized message. -/
theorem start_account_retry (cfg : StartRetryConfig) :
    (∀ msgs : List String,
      msgs.length + 1 ≤ cfg.maxAttempts →
      (∀ m ∈ msgs, is_retryable_start_error (normalize_start_error m) = true) →
      (start_account cfg (msgs.map .failure ++ [.success])).attemptsMade =
          msgs.length + 1 ∧
      (start_account cfg (msgs.map .failure ++ [.success])).row =
          ⟨"running", msgs.length, ""⟩ ∧
      (start_account cfg (msgs.map .failure ++ [.success])).result = .ok ∧
      (start_account cfg (msgs.map .failure ++ [.success])).sleeps =
        (List.range msgs.length).map
          (fun i => min cfg.maxDelaySec (cfg.baseDelaySec * 2 ^ i))) ∧
    (∀ (msgs : List String) (bad : String) (rest : List StartOutcome),
      msgs.length + 1 ≤ cfg.maxAttempts →
      (∀ m ∈ msgs, is_retryable_start_error (normalize_start_error m) = true) →
      is_retryable_start_error (normalize_start_error bad) = false →
      (start_account cfg (msgs.map .failure ++ .failure bad :: rest)).attemptsMade
          = msgs.length + 1 ∧
      (start_account cfg (msgs.map .failure ++ .failure bad :: rest)).row =
          ⟨"failed", msgs.length + 1, normalize_start_error bad⟩ ∧
      ∃ emsg,
        (start_account cfg (msgs.map .failure ++ .failure bad :: rest)).result =
          .error emsg ∧
        containsSub emsg ("(重试" ++ toString (msgs.length + 1) ++ "/" ++
          toString cfg.maxAttempts ++ ")") = true ∧
        containsSub emsg (normalize_start_error bad) = true) := by
  constructor
  · intro msgs hlen hret
    rw [start_account, start_loop_success cfg msgs 1 "" _ [] 0 (by omega)
      (by omega) hret]
    refine ⟨by simp, by simp, rfl, ?_⟩
    simp only [List.nil_append]
    refine List.map_congr_left ?_
    intro i _
    norm_num
  · intro msgs bad rest hlen hret hbad
    rw [start_account, start_loop_fail cfg msgs bad rest 1 "" _ [] 0 (by omega)
      (by omega) hret hbad]
    refine ⟨by simp, by simp [Nat.add_comm], ?_⟩
    refine ⟨_, rfl, ?_, ?_⟩
    · rw [containsSub, decide_eq_true_eq]
      refine ⟨"账号启动失败".data, (": " ++ normalize_start_error bad).data, ?_⟩
      have h1 : (1 : Nat) + msgs.length = msgs.length + 1 := by omega
      simp [String.data_append, h1]
    · rw [containsSub, decide_eq_true_eq]
      refine ⟨("账号启动失败(重试" ++ toString (1 + msgs.length) ++ "/" ++
        toString cfg.maxAttempts ++ "): ").data, [], ?_⟩
      simp [String.data_append]

/-- Witness for C4: max 5 attempts, two retryable "websocket disconnected"
failures then success (part a), and a single "missing login code" failure
(part b). -/
theorem start_account_retry_witness :
    ((start_account ⟨5, 1, 30⟩
        (["websocket disconnected", "websocket disconnected"].map .failure ++
          [.success])).attemptsMade = 3 ∧
      (start_account ⟨5, 1, 30⟩
        (["websocket disconnected", "websocket disconnected"].map .failure ++
          [.success])).row = ⟨"running", 2, ""⟩ ∧
      (start_account ⟨5, 1, 30⟩
        (["websocket disconnected", "websocket disconnected"].map .failure ++
          [.success])).result = .ok ∧
      (start_account ⟨5, 1, 30⟩
        (["websocket disconnected", "websocket disconnected"].map .failure ++
          [.success])).sleeps =
        (List.range 2).map (fun i => min (30 : ℚ) (1 * 2 ^ i))) ∧
    ((start_account ⟨5, 1, 30⟩
        (([] : List String).map .failure ++
          .failure "missing login code" :: [])).attemptsMade = 1 ∧
      (start_account ⟨5, 1, 30⟩
        (([] : List String).map .failure ++
          .failure "missing login code" :: [])).row =
        ⟨"failed", 1, normalize_start_error "missing login code"⟩ ∧
      ∃ emsg,
        (start_account ⟨5, 1, 30⟩
          (([] : List String).map .failure ++
            .failure "missing login code" :: [])).result = .error emsg ∧
        containsSub emsg ("(重试" ++ toString (1 : Nat) ++ "/" ++
          toString (5 : Nat) ++ ")") = true ∧
        containsSub emsg (normalize_start_error "missing login code") = true) :=
  ⟨(start_account_retry ⟨5, 1, 30⟩).1
      ["websocket disconnected", "websocket disconnected"]
      (by decide) (by decide),
   (start_account_retry ⟨5, 1, 30⟩).2 [] "missing login code" []
      (by decide) (by decide) (by decide)⟩

/-! ### Theorems: phase-time normalization (C9) -/

/-- Spec-side predicate: the phase has a positive normalized begin time
that is not in the future. -/
def phase_good (now : Int) (p : PlantPhase) : Prop :=
  0 < to_time_sec p.begin_time ∧ to_time_sec p.begin_time ≤ now

lemma current_phase_aux_spec (now : Int) :
    ∀ (l : List PlantPhase) (cand : Option PlantPhase) (candBegin : Int),
      (cand = none → candBegin = -1) →
      (∀ c, cand = some c →
        candBegin = to_time_sec c.begin_time ∧ 0 < candBegin ∧ candBegin ≤ now) →
      (∀ c, current_phase_aux now l cand candBegin = some c →
          ((c ∈ l ∧ phase_good now c) ∨ cand = some c)) ∧
      (∀ c, current_phase_aux now l cand candBegin = some c →
          candBegin ≤ to_time_sec c.begin_time ∧ phase_good now c) ∧
      (∀ p, p ∈ l → phase_good now p → ∀ c,
          current_phase_aux now l cand candBegin = some c →
          to_time_sec p.begin_time ≤ to_time_sec c.begin_time) ∧
      (∀ c0, cand = some c0 → ∃ c, current_phase_aux now l cand candBegin = some c) ∧
      ((∃ p, p ∈ l ∧ phase_good now p) →
          ∃ c, current_phase_aux now l cand candBegin = some c) := by
  intro l
  induction l with
  | nil =>
    intro cand candBegin hnone hsome
    refine ⟨?_, ?_, ?_, ?_, ?_⟩
    · intro c hc; right; simpa [current_phase_aux] using hc
    · intro c hc
      simp only [current_phase_aux] at hc
      rcases hsome c hc with ⟨heq, hpos, hle⟩
      exact ⟨le_of_eq heq, heq ▸ hpos, heq ▸ hle⟩
    · intro p hp; simp at hp
    · intro c0 hc0; exact ⟨c0, by simpa [current_phase_aux] using hc0⟩
    · rintro ⟨p, hp, -⟩; simp at hp
  | cons p rest ih =>
    intro cand candBegin hnone hsome
    by_cases hb : to_time_sec p.begin_time ≤ 0
    · -- skipped: non-positive begin time
      have hstep : current_phase_aux now (p :: rest) cand candBegin =
          current_phase_aux now rest cand candBegin := by
        simp [current_phase_aux, hb]
      have IH := ih cand candBegin hnone hsome
      refine ⟨?_, ?_, ?_, ?_, ?_⟩
      · intro c hc
        rcases IH.1 c (hstep.symm.trans hc) with ⟨hm, hg⟩ | h
        · exact Or.inl ⟨List.mem_cons_of_mem _ hm, hg⟩
        · exact Or.inr h
      · intro c hc; exact IH.2.1 c (hstep.symm.trans hc)
      · intro q hq hgq c hc
        rcases List.mem_cons.mp hq with rfl | hq'
        · exact absurd hgq.1 (not_lt.mpr hb)
        · exact IH.2.2.1 q hq' hgq c (hstep.symm.trans hc)
      · intro c0 hc0
        rcases IH.2.2.2.1 c0 hc0 with ⟨c, hc⟩
        exact ⟨c, hstep.trans hc⟩
      · rintro ⟨q, hq, hgq⟩
        rcases List.mem_cons.mp hq with rfl | hq'
        · exact absurd hgq.1 (not_lt.mpr hb)
        · rcases IH.2.2.2.2 ⟨q, hq', hgq⟩ with ⟨c, hc⟩
          exact ⟨c, hstep.trans hc⟩
    · by_cases hcnd : to_time_sec p.begin_time ≤ now ∧
          to_time_sec p.begin_time ≥ candBegin
      · -- p becomes the new candidate
        have hstep : current_phase_aux now (p :: rest) cand candBegin =
            current_phase_aux now rest (some p) (to_time_sec p.begin_time) := by
          simp [current_phase_aux, hb, hcnd]
        have hgp : phase_good now p := ⟨lt_of_not_le hb, hcnd.1⟩
        have IH := ih (some p) (to_time_sec p.begin_time) (by simp)
          (by rintro c hc; injection hc with h; subst h
              exact ⟨rfl, hgp.1, hgp.2⟩)
        refine ⟨?_, ?_, ?_, ?_, ?_⟩
        · intro c hc
          rcases IH.1 c (hstep.symm.trans hc) with ⟨hm, hg⟩ | h
          · exact Or.inl ⟨List.mem_cons_of_mem _ hm, hg⟩
          · injection h with h; subst h
            exact Or.inl ⟨List.mem_cons_self _ _, hgp⟩
        · intro c hc
          rcases IH.2.1 c (hstep.symm.trans hc) with ⟨hle, hg⟩
          exact ⟨le_trans hcnd.2 hle, hg⟩
        · intro q hq hgq c hc
          rcases List.mem_cons.mp hq with rfl | hq'
          · exact (IH.2.1 c (hstep.symm.trans hc)).1
          · exact IH.2.2.1 q hq' hgq c (hstep.symm.trans hc)
        · intro c0 _
          rcases IH.2.2.2.1 p rfl with ⟨c, hc⟩
          exact ⟨c, hstep.trans hc⟩
        · intro _
          rcases IH.2.2.2.1 p rfl with ⟨c, hc⟩
          exact ⟨c, hstep.trans hc⟩
      · -- p is skipped: either in the future or below the current candidate
        have hstep : current_phase_aux now (p :: rest) cand candBegin =
            current_phase_aux now rest cand candBegin := by
          simp only [current_phase_aux]
          rw [if_neg hb, if_neg hcnd]
        have IH := ih cand candBegin hnone hsome
        refine ⟨?_, ?_, ?_, ?_, ?_⟩
        · intro c hc
          rcases IH.1 c (hstep.symm.trans hc) with ⟨hm, hg⟩ | h
          · exact Or.inl ⟨List.mem_cons_of_mem _ hm, hg⟩
          · exact Or.inr h
        · intro c hc; exact IH.2.1 c (hstep.symm.trans hc)
        · intro q hq hgq c hc
          rcases List.mem_cons.mp hq with rfl | hq'
          · -- q = p is good but was skipped, so candBegin exceeds it
            have hlt : to_time_sec q.begin_time < candBegin := by
              rcases not_and_or.mp hcnd with h | h
              · exact absurd hgq.2 h
              · exact lt_of_not_le h
            have := (IH.2.1 c (hstep.symm.trans hc)).1
            omega
          · exact IH.2.2.1 q hq' hgq c (hstep.symm.trans hc)
        · intro c0 hc0
          rcases IH.2.2.2.1 c0 hc0 with ⟨c, hc⟩
          exact ⟨c, hstep.trans hc⟩
        · rintro ⟨q, hq, hgq⟩
          rcases List.mem_cons.mp hq with rfl | hq'
          · -- q = p skipped means a candidate already exists
            have hlt : to_time_sec q.begin_time < candBegin := by
              rcases not_and_or.mp hcnd with h | h
              · exact absurd hgq.2 h
              · exact lt_of_not_le h
            have hex : ∃ c0, cand = some c0 := by
              cases hcand : cand with
              | none => exfalso; have := hnone hcand; have := hgq.1; omega
              | some c0 => exact ⟨c0, rfl⟩
            rcases hex with ⟨c0, hcand⟩
            rcases IH.2.2.2.1 c0 hcand with ⟨c, hc⟩
            exact ⟨c, hstep.trans hc⟩
          · rcases IH.2.2.2.2 ⟨q, hq', hgq⟩ with ⟨c, hc⟩
            exact ⟨c, hstep.trans hc⟩

/-- C9: phase times are normalized (non-positive ↦ 0, values above 10^12
are milliseconds, the rest seconds; in particular 1700000000000 ↦
1700000000 and 1700000000 ↦ itself), and whenever some phase has a
positive normalized begin time ≤ now, the current phase is one whose
normalized begin time is the greatest such value. -/
theorem farm_phase_time_normalization :
    (∀ n : Int, n ≤ 0 → to_time_sec n = 0) ∧
    (∀ n : Int, n > 1000000000000 → to_time_sec n = n / 1000) ∧
    (∀ n : Int, 0 < n → n ≤ 1000000000000 → to_time_sec n = n) ∧
    to_time_sec 1700000000000 = 1700000000 ∧
    to_time_sec 1700000000 = 1700000000 ∧
    (∀ (phases : List PlantPhase) (now : Int) (p : PlantPhase),
      p ∈ phases → 0 < to_time_sec p.begin_time →
      to_time_sec p.begin_time ≤ now →
      ∃ c, current_phase phases now = some c ∧ c ∈ phases ∧
        0 < to_time_sec c.begin_time ∧ to_time_sec c.begin_time ≤ now ∧
        ∀ q ∈ phases, 0 < to_time_sec q.begin_time →
          to_time_sec q.begin_time ≤ now →
          to_time_sec q.begin_time ≤ to_time_sec c.begin_time) := by
  refine ⟨?_, ?_, ?_, by decide, by decide, ?_⟩
  · intro n hn; unfold to_time_sec; rw [if_pos hn]
  · intro n hn; unfold to_time_sec; rw [if_neg (by omega), if_pos hn]
  · intro n h0 h1; unfold to_time_sec; rw [if_neg (by omega), if_neg (by omega)]
  · intro phases now p hp hpos hle
    have H := current_phase_aux_spec now phases none (-1) (fun _ => rfl)
      (by intro c hc; cases hc)
    rcases H.2.2.2.2 ⟨p, hp, hpos, hle⟩ with ⟨c, hc⟩
    have hmem : c ∈ phases ∧ phase_good now c := by
      rcases H.1 c hc with h | h
      · exact h
      · cases h
    refine ⟨c, ?_, hmem.1, hmem.2.1, hmem.2.2, ?_⟩
    · simp [current_phase, hc]
    · intro q hq hqpos hqle
      exact H.2.2.1 q hq ⟨hqpos, hqle⟩ c hc

/-- Witness for C9 at a concrete plant: two phases, one in seconds and one
in milliseconds, at a concrete `now`. -/
theorem farm_phase_time_normalization_witness :
    ∃ c, current_phase [⟨1, 100⟩, ⟨2, 1700000000000⟩] 1800000000 = some c ∧
      c ∈ [(⟨1, 100⟩ : PlantPhase), ⟨2, 1700000000000⟩] ∧
      0 < to_time_sec c.begin_time ∧ to_time_sec c.begin_time ≤ 1800000000 ∧
      ∀ q ∈ [(⟨1, 100⟩ : PlantPhase), ⟨2, 1700000000000⟩],
        0 < to_time_sec q.begin_time → to_time_sec q.begin_time ≤ 1800000000 →
        to_time_sec q.begin_time ≤ to_time_sec c.begin_time :=
  farm_phase_time_normalization.2.2.2.2.2
    [⟨1, 100⟩, ⟨2, 1700000000000⟩] 1800000000 ⟨1, 100⟩
    (by decide) (by decide) (by decide)

/-! ### Theorems: quiet hours (C8) -/

/-- C8: with the feature enabled and both bounds parsing as HH:MM, the
runtime is in quiet hours exactly on the window described by the claim
(`start == end` means the whole day, `start < end` means
`[start, end)`, `start > end` wraps midnight); with the feature disabled
or a bound failing to parse it is never in quiet hours. -/
theorem quiet_hours_window (cfg : FriendQuietHours) (cur : Int) :
    (cfg.enabled = false → in_friend_quiet_hours cfg cur = false) ∧
    (∀ s e : Int,
      cfg.enabled = true →
      parse_hhmm (if cfg.start = "" then "23:00" else cfg.start) = some s →
      parse_hhmm (if cfg.stop = "" then "07:00" else cfg.stop) = some e →
      (in_friend_quiet_hours cfg cur = true ↔
        (s = e ∨ (s < e ∧ s ≤ cur ∧ cur < e) ∨
          (e < s ∧ (cur ≥ s ∨ cur < e))))) ∧
    ((parse_hhmm (if cfg.start = "" then "23:00" else cfg.start) = none ∨
      parse_hhmm (if cfg.stop = "" then "07:00" else cfg.stop) = none) →
      in_friend_quiet_hours cfg cur = false) := by
  refine ⟨?_, ?_, ?_⟩
  · intro h; simp [in_friend_quiet_hours, h]
  · intro s e hen hs he
    simp only [in_friend_quiet_hours, hen, Bool.not_true, Bool.false_eq_true,
      if_false, hs, he]
    by_cases hse : s = e
    · simp [hse]
    · by_cases hlt : s < e
      · simp only [if_neg hse, if_pos hlt, decide_eq_true_eq]
        omega
      · simp only [if_neg hse, if_neg hlt, decide_eq_true_eq]
        omega
  · intro h
    cases hen : cfg.enabled with
    | false => simp [in_friend_quiet_hours, hen]
    | true =>
      rcases h with h | h
      · simp [in_friend_quiet_hours, hen, h]
      · rcases hx : parse_hhmm (if cfg.start = "" then "23:00" else cfg.start)
          with _ | s <;>
          simp [in_friend_quiet_hours, hen, h, hx]

/-- Witness for C8: a wrapping 23:00–07:00 window at 01:30 local time is
inside quiet hours. -/
theorem quiet_hours_window_witness :
    in_friend_quiet_hours ⟨true, "23:00", "07:00"⟩ 90 = true :=
  ((quiet_hours_window ⟨true, "23:00", "07:00"⟩ 90).2.1 1380 420
    rfl (by decide) (by decide)).mpr (by omega)

/-! ### Theorems: JSON persistence (C7) -/

/-- C7 counterexample: the state store's save of `bindings_v2.json` is a
single direct write of the target path — not a `.tmp` write followed by a
rename — so the claim that every persisted state file is written
atomically via temp-file + rename is false on the code. -/
theorem state_store_save_not_atomic_counterexample :
    state_store_save_json "bindings_v2.json" "{}" =
      [.write "bindings_v2.json" "{}"] ∧
    isAtomicSaveTrace
      (state_store_save_json "bindings_v2.json" "{}") "bindings_v2.json" = false :=
  ⟨rfl, rfl⟩

/-- C7 amended: the runtime manager's saves (accounts_v2.json,
settings_v2.json, runtime_v2.json, runtime_logs_v2.json all go through
`_save_json_atomic`) are atomic temp-file + rename writes, while the state
store's saves (bindings_v2.json, whitelist.json, state_v2.json via
`_save_json`) are direct writes without a temporary file. -/
theorem file_saves_atomicity :
    (∀ path payload, isAtomicSaveTrace (save_json_atomic path payload) path = true) ∧
    (∀ path payload,
      isAtomicSaveTrace (state_store_save_json path payload) path = false) := by
  constructor
  · intro path payload
    simp [isAtomicSaveTrace, save_json_atomic]
  · intro path payload
    rfl

end QFarm
